import Mathlib

/-!
# AMQP-CPP `AddressInfo` (src/linux_tcp/addressinfo.h)

A shallow embedding of the `AMQP::AddressInfo` class, the wrapper around
`getaddrinfo()`, and theorems about its constructor, destructor, `size()` and
`operator[]`.

* The platform facilities the class calls (`getaddrinfo`, `gai_strerror`,
  `srand`, `rand`) are the fields of `Platform`; every theorem quantifies over them.
* The effects of a call (clock reads, reseeding, lookups, acquisition and release
  of result sets) are recorded in an explicit `World` that is passed through.
* A `struct addrinfo *` is the null pointer or a record whose `ai_next` field
  holds the rest of the linked list: a pointer is modelled by what it points to.
-/

namespace AMQP

/-! ## Data model -/

/-- Address family constant `AF_UNSPEC` of `<sys/socket.h>` (Linux value). -/
def AF_UNSPEC : Int := 0

/-- Socket type constant `SOCK_STREAM` of `<sys/socket.h>` (Linux value). -/
def SOCK_STREAM : Int := 1

/-- A value of type `struct addrinfo *` (`<netdb.h>`): the null pointer, or a pointer to
a record, given by the fields of the record in declaration order. `ai_addr` and
`ai_canonname` are pointers themselves (`none` is null, a socket address is its bytes);
`ai_next` is the pointer to the next record of the result list. A pointer is modelled
by what it points to. -/
inductive addrinfo_ptr where
  | nullptr
  | ptr (ai_flags ai_family ai_socktype ai_protocol : Int) (ai_addrlen : Nat)
       (ai_addr : Option (List Nat)) (ai_canonname : Option String)
       (ai_next : addrinfo_ptr)
  deriving DecidableEq

namespace addrinfo_ptr

/-- The member access `p->ai_next`; there is no record behind the null pointer. -/
def ai_next : addrinfo_ptr → addrinfo_ptr
  | nullptr => nullptr
  | ptr _ _ _ _ _ _ _ n => n

end addrinfo_ptr

/-- The platform record `struct timeval` of `<sys/time.h>`; both fields are signed. -/
structure timeval where
  tv_sec : Int
  tv_usec : Int
  deriving DecidableEq

/-- The exceptions the class throws: only `std::runtime_error`, with its message. -/
inductive Exception where
  | runtime_error (what : String)
  deriving DecidableEq

/-- How a call ends: it returns a value, it throws, or the language leaves its behaviour
undefined (an unchecked access outside a vector). -/
inductive Outcome (α : Type) where
  | returned (a : α)
  | thrown (e : Exception)
  | undefined
  deriving DecidableEq

/-- The platform facilities the class calls. `getaddrinfo node service hints` gives the
return code and what it stores through its fourth argument; `srand` maps a seed (an
`unsigned int`) to a generator state and `rand` draws one value from a state. -/
structure Platform (S : Type) where
  getaddrinfo : String → String → addrinfo_ptr → Int × addrinfo_ptr
  gai_strerror : Int → String
  srand : Nat → S
  rand : S → Nat × S

/-- The value `_info` holds after a successful lookup: the result set it heads (result
sets are numbered in the order the platform hands them out) and the pointer to its
first record. -/
structure info_ptr where
  set : Nat
  head : addrinfo_ptr
  deriving DecidableEq

/-- The process state the class reads and writes: the wall clock reading
`gettimeofday` reports and how often it was read, the state of the process-wide
generator behind `rand()` and the seeds given to `srand`, the calls made to
`getaddrinfo`, the number of result sets acquired from it and the result sets passed
to `freeaddrinfo`. -/
structure World (S : Type) where
  clock : timeval
  clock_reads : Nat
  rng : S
  seeds : List Nat
  lookups : List (String × String × addrinfo_ptr)
  acquired : Nat
  released : List Nat

/-- The class `AddressInfo`: the head of the result list and the vector of pointers to
its records. -/
structure AddressInfo where
  _info : info_ptr
  _v : List addrinfo_ptr
  deriving DecidableEq

/-! ## Library routines used by the class -/

/-- The character of a decimal digit. -/
def digit_char (d : Nat) : Char := Char.ofNat (48 + d)

/-- The call `std::to_string(port)` on a non-negative value: its decimal digits, most
significant first. -/
def to_string (n : Nat) : String :=
  if n = 0 then "0" else String.mk ((Nat.digits 10 n).reverse.map digit_char)

/-- Reading a string of decimal digits as a number; `none` when a character is not a
digit or the string is empty. -/
def parse_decimal (s : String) : Option Nat :=
  if s.data = [] then none
  else s.data.foldl
    (fun acc c => acc.bind fun n => if c.isDigit then some (10 * n + (c.toNat - 48)) else none)
    (some 0)

/-- Conversion of a signed integer to `unsigned int` (32 bits): reduction modulo 2^32. -/
def to_unsigned (x : Int) : Nat := (x % 2 ^ 32).toNat

/-- Conversion of an `int` index to `size_t` (64 bits): reduction modulo 2^64. -/
def to_size_t (i : Int) : Nat := (i % 2 ^ 64).toNat

/-- The call `std::vector::operator[]`: no bounds check, the element at position `n`
when there is one and undefined behaviour otherwise. -/
def vector_subscript {α : Type} (v : List α) (n : Nat) : Outcome α :=
  match v[n]? with
  | some a => .returned a
  | none => .undefined

/-- The call `std::iter_swap(first + i, first + j)`: exchanges the elements at positions
`i` and `j`. -/
def iter_swap {α : Type} (v : List α) (i j : Nat) : List α :=
  match v[i]?, v[j]? with
  | some a, some b => (v.set i b).set j a
  | _, _ => v

/-- The loop of `std::random_shuffle(first, last)` in GNU libstdc++:
`for (i = first + 1; i != last; ++i) { j = first + rand() % ((i - first) + 1);
if (i != j) iter_swap(i, j); }`, with `k` iterations left to run from position `i`. -/
def random_shuffle_loop {S α : Type} (rand : S → Nat × S) :
    Nat → Nat → S → List α → List α × S
  | 0, _, s, v => (v, s)
  | k + 1, i, s, v =>
    let d := rand s
    let j := d.1 % (i + 1)
    random_shuffle_loop rand k (i + 1) d.2 (if i ≠ j then iter_swap v i j else v)

/-- The call `std::random_shuffle(v.begin(), v.end())` in GNU libstdc++, drawing from
`rand()`: nothing on an empty range, otherwise the loop from position 1 to the end. -/
def random_shuffle {S α : Type} (rand : S → Nat × S) (s : S) (v : List α) : List α × S :=
  if v.length = 0 then (v, s) else random_shuffle_loop rand (v.length - 1) 1 s v

/-! ## The class -/

/-- The loop `for (auto *current = _info; current; current = current->ai_next)
_v.push_back(current);` of the constructor, from `current` with the vector `v` so far. -/
def collect : addrinfo_ptr → List addrinfo_ptr → List addrinfo_ptr
  | .nullptr, v => v
  | .ptr a b c d e f g n, v => collect n (v ++ [.ptr a b c d e f g n])

/-- The argument `&hints` of the constructor: the record is `memset` to zero, then
`ai_family = AF_UNSPEC` and `ai_socktype = SOCK_STREAM`. -/
def hints : addrinfo_ptr := .ptr 0 AF_UNSPEC SOCK_STREAM 0 0 none none .nullptr

/-- The seed the constructor passes to `srand`: `(time.tv_sec * 1000) +
(time.tv_usec / 1000)`, C division truncating, converted to `unsigned int`. -/
def seed_of (time : timeval) : Nat :=
  to_unsigned (time.tv_sec * 1000 + Int.tdiv time.tv_usec 1000)

namespace AddressInfo

/-- The constructor `AddressInfo(hostname, port = 5672, randomOrder = false)`: the
outcome and the world after it. -/
def construct {S : Type} (P : Platform S) (w : World S) (hostname : String)
    (port : Nat := 5672) (randomOrder : Bool := false) : Outcome AddressInfo × World S :=
  let portnumber := to_string port
  let r := P.getaddrinfo hostname portnumber hints
  let w1 := { w with lookups := w.lookups ++ [(hostname, portnumber, hints)] }
  if r.1 ≠ 0 then (.thrown (.runtime_error (P.gai_strerror r.1)), w1)
  else
    let info : info_ptr := ⟨w1.acquired, r.2⟩
    let w2 := { w1 with acquired := w1.acquired + 1 }
    let v := collect info.head []
    if randomOrder then
      let time := w2.clock
      let w3 := { w2 with clock_reads := w2.clock_reads + 1 }
      let seed := seed_of time
      let w4 := { w3 with rng := P.srand seed, seeds := w3.seeds ++ [seed] }
      let sh := random_shuffle P.rand w4.rng v
      (.returned ⟨info, sh.1⟩, { w4 with rng := sh.2 })
    else (.returned ⟨info, v⟩, w2)

/-- The destructor `~AddressInfo()`: `freeaddrinfo(_info)`. -/
def destruct {S : Type} (o : AddressInfo) (w : World S) : World S :=
  { w with released := w.released ++ [o._info.set] }

/-- The method `size()`: `_v.size()`. -/
def size (o : AddressInfo) : Nat := o._v.length

/-- The method `operator[](int index)`: `_v[index]`, the index converted to `size_t`. -/
def subscript (o : AddressInfo) (index : Int) : Outcome addrinfo_ptr :=
  vector_subscript o._v (to_size_t index)

/-- One call a holder of an instance can make between construction and destruction. -/
inductive Call where
  | size
  | subscript (index : Int)
  deriving DecidableEq

/-- What such a call gives back. -/
inductive Reply where
  | size (n : Nat)
  | subscript (r : Outcome addrinfo_ptr)
  deriving DecidableEq

/-- Performs one call; both methods are `const` and touch nothing outside the object. -/
def call (o : AddressInfo) : Call → Reply
  | .size => .size o.size
  | .subscript i => .subscript (o.subscript i)

/-- The call is `size()`, or `operator[]` with an `int` index in `[0, n)`. -/
def Call.within (n : Nat) : Call → Prop
  | .size => True
  | .subscript index => 0 ≤ index ∧ index < n ∧ index < 2 ^ 31

instance (n : Nat) (c : Call) : Decidable (c.within n) := by
  cases c <;> unfold Call.within <;> infer_instance

/-- The reply is that of an access with undefined behaviour. -/
def Reply.is_undefined : Reply → Bool
  | .subscript .undefined => true
  | _ => false

/-- Performs the calls the holder makes, in order. An access outside the vector has
undefined behaviour: from there on nothing is defined, neither the replies that follow
nor that the destructor runs, so the run as a whole is undefined. -/
def run_calls (o : AddressInfo) : List Call → Outcome (List Reply)
  | [] => .returned []
  | c :: cs =>
    if (o.call c).is_undefined then .undefined
    else
      match run_calls o cs with
      | .returned replies => .returned (o.call c :: replies)
      | .thrown e => .thrown e
      | .undefined => .undefined

/-- How the lifetime of an instance ends: the constructor returned, every call was
defined and the destructor ran (the replies and the world at the end); or the
constructor threw, so that there never was an object and no destructor runs (the
exception and the world at the throw); or a call had undefined behaviour. -/
inductive Lifetime (S : Type) where
  | completed (replies : List Reply) (w : World S)
  | failed (e : Exception) (w : World S)
  | undefined

/-- The lifetime of one instance: the constructor, the calls the holder makes, and the
destructor at the end of the scope when the constructor returned. -/
def lifetime {S : Type} (P : Platform S) (w : World S) (hostname : String) (port : Nat)
    (randomOrder : Bool) (calls : List Call) : Lifetime S :=
  match construct P w hostname port randomOrder with
  | (.returned o, w1) =>
    match o.run_calls calls with
    | .returned replies => .completed replies (o.destruct w1)
    | _ => .undefined
  | (.thrown e, w1) => .failed e w1
  | (.undefined, _) => .undefined

/-- The backing result set of `o` is live in `w`: it was acquired and not released. -/
def live {S : Type} (o : AddressInfo) (w : World S) : Prop :=
  o._info.set < w.acquired ∧ o._info.set ∉ w.released

instance {S : Type} (o : AddressInfo) (w : World S) : Decidable (o.live w) := by
  unfold live
  infer_instance

end AddressInfo

/-! ## Reading a result list -/

/-- The pointer reached from `p` by following `ai_next` `i` times. -/
def follow : Nat → addrinfo_ptr → addrinfo_ptr
  | 0, p => p
  | i + 1, p => follow i p.ai_next

/-- The number of records of the list headed by `p`. -/
def list_length : addrinfo_ptr → Nat
  | .nullptr => 0
  | .ptr _ _ _ _ _ _ _ n => list_length n + 1

/-- The vector of a constructed object, when the constructor returned one. -/
def view_of : Outcome AddressInfo → Option (List addrinfo_ptr)
  | .returned o => some o._v
  | _ => none

/-! ## A concrete platform -/

/-- Third record of the sample list: 127.0.0.1 port 5672, end of the list. -/
def sample_c : addrinfo_ptr :=
  .ptr 0 2 1 6 16 (some [2, 0, 22, 40, 127, 0, 0, 1]) none .nullptr

/-- Second record of the sample list: 10.0.0.2 port 5672. -/
def sample_b : addrinfo_ptr :=
  .ptr 0 2 1 6 16 (some [2, 0, 22, 40, 10, 0, 0, 2]) none sample_c

/-- First record of the sample list: 10.0.0.1 port 5672. -/
def sample_a : addrinfo_ptr :=
  .ptr 0 2 1 6 16 (some [2, 0, 22, 40, 10, 0, 0, 1]) none sample_b

/-- A sample platform: "localhost" resolves to the three sample records, "nowhere" to
code 0 with an empty list, every other name fails with code -2; the generator is a
linear congruential one with 31 bits of state. -/
def sample_platform : Platform Nat where
  getaddrinfo := fun node _ _ =>
    if node = "localhost" then (0, sample_a)
    else if node = "nowhere" then (0, .nullptr)
    else (-2, .nullptr)
  gai_strerror := fun code =>
    if code = -2 then "Name or service not known" else "Unknown error"
  srand := fun seed => seed % 2 ^ 31
  rand := fun s => ((s * 1103515245 + 12345) % 2 ^ 31, (s * 1103515245 + 12345) % 2 ^ 31)

/-- A sample world: the clock at 1700000000.123456 s, nothing done yet. -/
def sample_world : World Nat where
  clock := ⟨1700000000, 123456⟩
  clock_reads := 0
  rng := 1
  seeds := []
  lookups := []
  acquired := 0
  released := []

/-- A second sample world: the clock 543 microseconds later, within the same millisecond,
the generator in another state, one result set acquired and released before. -/
def sample_world_later : World Nat where
  clock := ⟨1700000000, 123999⟩
  clock_reads := 4
  rng := 99
  seeds := [7]
  lookups := []
  acquired := 1
  released := [0]

/-- The object the constructor builds from the sample lookup of "localhost" in the
sample world, in the order of the lookup. -/
def sample_object : AddressInfo := ⟨⟨0, sample_a⟩, [sample_a, sample_b, sample_c]⟩

/-! ## The random source as a stream of values -/

/-- A generator whose state is the list of values `rand()` is still to return (0 once
the list is used up). -/
def stream_rand : List Nat → Nat × List Nat
  | [] => (0, [])
  | r :: rs => (r, rs)

/-- The platform whose lookup gives `res` and whose `rand()` returns the values `rs` in
turn after seeding. -/
def stream_platform (res : addrinfo_ptr) (rs : List Nat) : Platform (List Nat) where
  getaddrinfo := fun _ _ _ => (0, res)
  gai_strerror := fun _ => ""
  srand := fun _ => rs
  rand := stream_rand

/-- The world the stream platform starts from. -/
def stream_world : World (List Nat) where
  clock := ⟨0, 0⟩
  clock_reads := 0
  rng := []
  seeds := []
  lookups := []
  acquired := 0
  released := []

/-- The randomized view built over the list `res` when `rand()` returns the values `rs`. -/
def randomized_view (res : addrinfo_ptr) (rs : List Nat) : List addrinfo_ptr :=
  (view_of
    (AddressInfo.construct (stream_platform res rs) stream_world "host" 5672 true).1).getD []

/-- The number of ways to fill the `k` draws of a shuffle with values of `rand()` in
`[0, RAND_MAX]`, where `m = RAND_MAX + 1`, such that the view over `res` comes out as `p`. -/
def ways (m k : Nat) (res : addrinfo_ptr) (p : List addrinfo_ptr) : Nat :=
  (Finset.univ.filter
    (fun f : Fin k → Fin m => randomized_view res (List.ofFn fun i => (f i).val) = p)).card

/-- A clock reading that gives the seed `seed`: `seed / 1000` seconds and
`seed % 1000` milliseconds. -/
def clock_of (seed : Nat) : timeval := ⟨(seed / 1000 : Nat), (seed % 1000 * 1000 : Nat)⟩

/-- The randomized view the constructor builds for `hostname` in the world `w` when the
clock reading gives the seed `seed`. -/
def seeded_view {S : Type} (P : Platform S) (w : World S) (hostname : String) (seed : Nat) :
    List addrinfo_ptr :=
  (view_of
    (AddressInfo.construct P { w with clock := clock_of seed } hostname 5672 true).1).getD []

/-- The number of seeds, among the `2 ^ 32` values of an `unsigned int`, for which the
randomized view for `hostname` comes out as `p`. -/
def seed_ways {S : Type} (P : Platform S) (w : World S) (hostname : String)
    (p : List addrinfo_ptr) : Nat :=
  (Finset.univ.filter (fun s : Fin (2 ^ 32) => seeded_view P w hostname s.val = p)).card

/-! ## The result list and the vector built from it -/

theorem collect_append (p : addrinfo_ptr) : ∀ v : List addrinfo_ptr,
    collect p v = v ++ collect p [] := by
  induction p with
  | nullptr => intro v; simp [collect]
  | ptr a b c d e f g n ih =>
    intro v
    rw [collect, collect, ih (v ++ [_]), ih ([] ++ [_])]
    simp

theorem collect_length (p : addrinfo_ptr) : (collect p []).length = list_length p := by
  induction p with
  | nullptr => simp [collect, list_length]
  | ptr a b c d e f g n ih =>
    rw [collect, collect_append, list_length]
    simp [ih]

theorem collect_getElem? (p : addrinfo_ptr) :
    ∀ i : Nat, i < list_length p → (collect p [])[i]? = some (follow i p) := by
  induction p with
  | nullptr => intro i h; simp [list_length] at h
  | ptr a b c d e f g n ih =>
    intro i h
    rw [collect, collect_append]
    cases i with
    | zero => simp [follow]
    | succ i =>
      simp only [list_length, Nat.add_lt_add_iff_right] at h
      simpa [follow, addrinfo_ptr.ai_next] using ih i h

/-! ## The shuffle rearranges -/

theorem set_perm_cons {α : Type} (x b : α) : ∀ (l : List α) (j : Nat),
    l[j]? = some b → List.Perm (b :: l.set j x) (x :: l) := by
  intro l
  induction l with
  | nil => intro j h; simp at h
  | cons y ys ih =>
    intro j h
    cases j with
    | zero =>
      simp only [List.getElem?_cons_zero, Option.some.injEq] at h
      subst h
      simpa using List.Perm.swap x y ys
    | succ j =>
      simp only [List.getElem?_cons_succ] at h
      simp only [List.set_cons_succ]
      exact (List.Perm.swap y b _).trans (((ih j h).cons y).trans (List.Perm.swap x y ys))

theorem iter_swap_perm {α : Type} : ∀ (v : List α) (i j : Nat),
    List.Perm (iter_swap v i j) v := by
  intro v
  induction v with
  | nil => intro i j; simp [iter_swap]
  | cons y ys ih =>
    intro i j
    cases i with
    | zero =>
      cases j with
      | zero => simp [iter_swap]
      | succ j =>
        cases h : ys[j]? with
        | none => simp [iter_swap, h]
        | some b =>
          simp only [iter_swap, List.getElem?_cons_zero, List.getElem?_cons_succ, h,
            List.set_cons_zero, List.set_cons_succ]
          exact set_perm_cons y b ys j h
    | succ i =>
      cases j with
      | zero =>
        cases h : ys[i]? with
        | none => simp [iter_swap, h]
        | some a =>
          simp only [iter_swap, List.getElem?_cons_zero, List.getElem?_cons_succ, h,
            List.set_cons_zero, List.set_cons_succ]
          exact set_perm_cons y a ys i h
      | succ j =>
        have := ih i j
        cases hi : ys[i]? with
        | none => simp [iter_swap, hi]
        | some a =>
          cases hj : ys[j]? with
          | none => simp [iter_swap, hi, hj]
          | some b =>
            simp only [iter_swap, hi, hj] at this
            simp only [iter_swap, List.getElem?_cons_succ, hi, hj, List.set_cons_succ]
            exact this.cons y

theorem random_shuffle_loop_perm {S α : Type} (rand : S → Nat × S) :
    ∀ (k i : Nat) (s : S) (v : List α), List.Perm (random_shuffle_loop rand k i s v).1 v := by
  intro k
  induction k with
  | zero => intro i s v; simp [random_shuffle_loop]
  | succ k ih =>
    intro i s v
    simp only [random_shuffle_loop]
    refine (ih _ _ _).trans ?_
    split
    · exact iter_swap_perm v _ _
    · exact List.Perm.refl v

theorem random_shuffle_perm {S α : Type} (rand : S → Nat × S) (s : S) (v : List α) :
    List.Perm (random_shuffle rand s v).1 v := by
  unfold random_shuffle
  split
  · exact List.Perm.refl v
  · exact random_shuffle_loop_perm rand _ _ _ _

/-! ## What the constructor computes -/

theorem follow_ne_nullptr (p : addrinfo_ptr) :
    ∀ i : Nat, i < list_length p → follow i p ≠ .nullptr := by
  induction p with
  | nullptr => intro i h; simp [list_length] at h
  | ptr a b c d e f g n ih =>
    intro i h
    cases i with
    | zero => simp [follow]
    | succ i =>
      simp only [list_length, Nat.add_lt_add_iff_right] at h
      simpa [follow, addrinfo_ptr.ai_next] using ih i h

theorem list_length_eq_zero (p : addrinfo_ptr) : list_length p = 0 ↔ p = .nullptr := by
  cases p <;> simp [list_length]

theorem mem_collect (p : addrinfo_ptr) (x : addrinfo_ptr) (hx : x ∈ collect p []) :
    ∃ i, i < list_length p ∧ x = follow i p := by
  obtain ⟨i, hi, rfl⟩ := List.getElem_of_mem hx
  rw [collect_length] at hi
  refine ⟨i, hi, ?_⟩
  have h := collect_getElem? p i hi
  rw [List.getElem?_eq_getElem (by rw [collect_length]; exact hi)] at h
  exact Option.some.inj h

theorem construct_throws {S : Type} (P : Platform S) (w : World S) (hostname : String)
    (port : Nat) (randomOrder : Bool)
    (hc : (P.getaddrinfo hostname (to_string port) hints).1 ≠ 0) :
    AddressInfo.construct P w hostname port randomOrder =
      (.thrown (.runtime_error (P.gai_strerror (P.getaddrinfo hostname (to_string port) hints).1)),
        { w with lookups := w.lookups ++ [(hostname, to_string port, hints)] }) := by
  simp [AddressInfo.construct, hc]

theorem construct_plain {S : Type} (P : Platform S) (w : World S) (hostname : String)
    (port : Nat) (hc : (P.getaddrinfo hostname (to_string port) hints).1 = 0) :
    AddressInfo.construct P w hostname port false =
      (.returned ⟨⟨w.acquired, (P.getaddrinfo hostname (to_string port) hints).2⟩,
          collect (P.getaddrinfo hostname (to_string port) hints).2 []⟩,
        { w with lookups := w.lookups ++ [(hostname, to_string port, hints)],
                 acquired := w.acquired + 1 }) := by
  simp [AddressInfo.construct, hc]

theorem construct_random {S : Type} (P : Platform S) (w : World S) (hostname : String)
    (port : Nat) (hc : (P.getaddrinfo hostname (to_string port) hints).1 = 0) :
    AddressInfo.construct P w hostname port true =
      (.returned ⟨⟨w.acquired, (P.getaddrinfo hostname (to_string port) hints).2⟩,
          (random_shuffle P.rand (P.srand (seed_of w.clock))
            (collect (P.getaddrinfo hostname (to_string port) hints).2 [])).1⟩,
        { w with lookups := w.lookups ++ [(hostname, to_string port, hints)],
                 acquired := w.acquired + 1,
                 clock_reads := w.clock_reads + 1,
                 seeds := w.seeds ++ [seed_of w.clock],
                 rng := (random_shuffle P.rand (P.srand (seed_of w.clock))
                   (collect (P.getaddrinfo hostname (to_string port) hints).2 [])).2 }) := by
  simp [AddressInfo.construct, hc]

theorem construct_returned {S : Type} (P : Platform S) (w : World S) (hostname : String)
    (port : Nat) (randomOrder : Bool) (o : AddressInfo)
    (h : (AddressInfo.construct P w hostname port randomOrder).1 = .returned o) :
    (P.getaddrinfo hostname (to_string port) hints).1 = 0 ∧
      o._info = ⟨w.acquired, (P.getaddrinfo hostname (to_string port) hints).2⟩ ∧
      List.Perm o._v (collect (P.getaddrinfo hostname (to_string port) hints).2 []) := by
  by_cases hc : (P.getaddrinfo hostname (to_string port) hints).1 = 0
  · refine ⟨hc, ?_⟩
    cases randomOrder with
    | false =>
      rw [construct_plain P w hostname port hc] at h
      cases h
      exact ⟨rfl, List.Perm.refl _⟩
    | true =>
      rw [construct_random P w hostname port hc] at h
      cases h
      exact ⟨rfl, random_shuffle_perm _ _ _⟩
  · rw [construct_throws P w hostname port randomOrder hc] at h
    cases h

/-! ## C1: `operator[]` -/

/-- C1, as stated, fails: on the three-address view built from the sample lookup,
`operator[]` at index 3 (equal to `size()`) and at index -1 is an unchecked access with
undefined behaviour; no error of any kind is raised. -/
theorem subscript_outside_range_raises_nothing :
    (AddressInfo.construct sample_platform sample_world "localhost").1
        = .returned sample_object ∧
      sample_object.size = 3 ∧
      sample_object.subscript 3 = .undefined ∧
      sample_object.subscript (-1) = .undefined ∧
      ¬ (∃ e, sample_object.subscript 3 = .thrown e) ∧
      ¬ (∃ e, sample_object.subscript (-1) = .thrown e) := by
  refine ⟨by decide, by decide, by decide, by decide, ?_, ?_⟩
  · rintro ⟨e, h⟩
    rw [show sample_object.subscript 3 = .undefined by decide] at h
    cases h
  · rintro ⟨e, h⟩
    rw [show sample_object.subscript (-1) = .undefined by decide] at h
    cases h

theorem to_size_t_of_nonneg (i : Int) (h0 : 0 ≤ i) (h1 : i < 2 ^ 31) :
    to_size_t i = i.toNat := by
  unfold to_size_t
  rw [Int.emod_eq_of_lt h0 (by omega)]

theorem to_size_t_of_neg (i : Int) (h0 : -2 ^ 31 ≤ i) (h1 : i < 0) :
    2 ^ 63 ≤ to_size_t i := by
  unfold to_size_t
  have h : i % 2 ^ 64 = i + 2 ^ 64 := by
    rw [← Int.add_emod_self, Int.emod_eq_of_lt (by omega) (by omega)]
  rw [h]
  omega

/-- C1 (amended): for every object (so for every successfully constructed one) whose view
fits a vector, and every `int` index `i`: when `0 <= i < size()` the accessor returns the
element at position `i` of the view; when `i < 0` or `i >= size()` the access is
unchecked and its behaviour undefined; in no case is an error raised. -/
theorem subscript_returns_in_range_else_undefined (o : AddressInfo) (i : Int)
    (hi : -2 ^ 31 ≤ i ∧ i < 2 ^ 31) (hs : o.size < 2 ^ 63) :
    (0 ≤ i ∧ i < o.size → ∃ a, o._v[i.toNat]? = some a ∧ o.subscript i = .returned a) ∧
      (i < 0 ∨ (o.size : Int) ≤ i → o.subscript i = .undefined) ∧
      ∀ e, o.subscript i ≠ .thrown e := by
  obtain ⟨hlo, hhi⟩ := hi
  unfold AddressInfo.size at hs
  refine ⟨?_, ?_, ?_⟩
  · rintro ⟨h0, h1⟩
    unfold AddressInfo.size at h1
    have hlt : i.toNat < o._v.length := by omega
    refine ⟨o._v[i.toNat], List.getElem?_eq_getElem hlt, ?_⟩
    simp [AddressInfo.subscript, vector_subscript, to_size_t_of_nonneg i h0 hhi,
      List.getElem?_eq_getElem hlt]
  · intro h
    unfold AddressInfo.size at h
    have hge : o._v.length ≤ to_size_t i := by
      rcases h with h | h
      · have := to_size_t_of_neg i hlo h
        omega
      · rw [to_size_t_of_nonneg i (by omega) hhi]
        omega
    simp [AddressInfo.subscript, vector_subscript, List.getElem?_eq_none hge]
  · intro e
    simp only [AddressInfo.subscript, vector_subscript]
    split <;> simp

/-- C1 (amended), at the sample object: index 1 is returned, index 3 is undefined. -/
theorem subscript_returns_in_range_else_undefined_witness :
    ((-2 ^ 31 ≤ (1 : Int) ∧ (1 : Int) < 2 ^ 31) ∧ sample_object.size < 2 ^ 63) ∧
      sample_object.subscript 1 = .returned sample_b ∧
      sample_object.subscript 3 = .undefined := by
  have h1 := subscript_returns_in_range_else_undefined sample_object 1 (by decide) (by decide)
  have h3 := subscript_returns_in_range_else_undefined sample_object 3 (by decide) (by decide)
  refine ⟨by decide, ?_, h3.2.1 (by decide)⟩
  obtain ⟨a, ha, hr⟩ := h1.1 (by decide)
  rw [hr]
  have : sample_object._v[(1 : Int).toNat]? = some sample_b := by decide
  rw [this] at ha
  rw [Option.some.inj ha]

/-! ## C2: the size of a constructed object -/

/-- C2, as stated, fails: when the lookup returns code 0 with an empty list (the sample
name "nowhere"), construction succeeds and `size()` is 0. -/
theorem empty_lookup_constructs_empty_view :
    sample_platform.getaddrinfo "nowhere" (to_string 5672) hints = (0, .nullptr) ∧
      (AddressInfo.construct sample_platform sample_world "nowhere").1
        = .returned ⟨⟨0, .nullptr⟩, []⟩ ∧
      AddressInfo.size ⟨⟨0, .nullptr⟩, []⟩ = 0 := by
  refine ⟨by decide, by decide, by decide⟩

/-- C2 (amended): for every successful construction, `size()` is the number of records of
the list the lookup returned, so `size() >= 1` exactly when that list is not empty; when
the lookup returns code 0 with an empty list, construction succeeds with `size() = 0`. -/
theorem size_is_number_of_lookup_records {S : Type} (P : Platform S) (w : World S)
    (hostname : String) (port : Nat) (randomOrder : Bool) :
    (∀ o, (AddressInfo.construct P w hostname port randomOrder).1 = .returned o →
        o.size = list_length (P.getaddrinfo hostname (to_string port) hints).2 ∧
        (1 ≤ o.size ↔ (P.getaddrinfo hostname (to_string port) hints).2 ≠ .nullptr)) ∧
      (P.getaddrinfo hostname (to_string port) hints = (0, .nullptr) →
        ∃ o, (AddressInfo.construct P w hostname port randomOrder).1 = .returned o ∧
          o.size = 0) := by
  constructor
  · intro o h
    obtain ⟨_, _, hperm⟩ := construct_returned P w hostname port randomOrder o h
    have hsz : o.size = list_length (P.getaddrinfo hostname (to_string port) hints).2 := by
      unfold AddressInfo.size
      rw [hperm.length_eq, collect_length]
    refine ⟨hsz, ?_⟩
    rw [hsz, ← not_iff_not, not_not, ← list_length_eq_zero]
    omega
  · intro h
    have hc : (P.getaddrinfo hostname (to_string port) hints).1 = 0 := by rw [h]
    cases randomOrder with
    | false =>
      rw [construct_plain P w hostname port hc, h]
      exact ⟨_, rfl, rfl⟩
    | true =>
      rw [construct_random P w hostname port hc, h]
      exact ⟨_, rfl, rfl⟩

/-- C2 (amended), at the sample lookups: three records give size 3, none gives size 0. -/
theorem size_is_number_of_lookup_records_witness :
    sample_object.size = 3 ∧
      ∃ o, (AddressInfo.construct sample_platform sample_world "nowhere" 5672 true).1
        = .returned o ∧ o.size = 0 :=
  ⟨((size_is_number_of_lookup_records sample_platform sample_world "localhost" 5672 false).1
      sample_object (by decide)).1.trans (by decide),
    (size_is_number_of_lookup_records sample_platform sample_world "nowhere" 5672 true).2
      (by decide)⟩

/-! ## C3: failure of the constructor -/

/-- C3: the constructor fails (returns no object) if and only if the lookup returns a
non-zero code; it then throws the error carrying exactly `gai_strerror(code)`, builds
no view, does not read the clock, leaves the generator and its seeds untouched, and has
acquired and released no result set. -/
theorem construct_fails_iff_lookup_code_nonzero {S : Type} (P : Platform S) (w : World S)
    (hostname : String) (port : Nat) (randomOrder : Bool) :
    ((∀ o, (AddressInfo.construct P w hostname port randomOrder).1 ≠ .returned o) ↔
        (P.getaddrinfo hostname (to_string port) hints).1 ≠ 0) ∧
      ((P.getaddrinfo hostname (to_string port) hints).1 ≠ 0 →
        (AddressInfo.construct P w hostname port randomOrder).1 =
            .thrown (.runtime_error
              (P.gai_strerror (P.getaddrinfo hostname (to_string port) hints).1)) ∧
          view_of (AddressInfo.construct P w hostname port randomOrder).1 = none ∧
          (AddressInfo.construct P w hostname port randomOrder).2.clock_reads
            = w.clock_reads ∧
          (AddressInfo.construct P w hostname port randomOrder).2.rng = w.rng ∧
          (AddressInfo.construct P w hostname port randomOrder).2.seeds = w.seeds ∧
          (AddressInfo.construct P w hostname port randomOrder).2.acquired = w.acquired ∧
          (AddressInfo.construct P w hostname port randomOrder).2.released = w.released) := by
  constructor
  · constructor
    · intro h hc
      cases randomOrder with
      | false => exact h _ (by rw [construct_plain P w hostname port hc])
      | true => exact h _ (by rw [construct_random P w hostname port hc])
    · intro hc o h
      rw [construct_throws P w hostname port randomOrder hc] at h
      cases h
  · intro hc
    rw [construct_throws P w hostname port randomOrder hc]
    exact ⟨rfl, rfl, rfl, rfl, rfl, rfl, rfl⟩

/-- C3, at the sample platform: an unknown name fails with the diagnostic of code -2 and
the world keeps its clock count and generator; "localhost" does not fail. -/
theorem construct_fails_iff_lookup_code_nonzero_witness :
    (AddressInfo.construct sample_platform sample_world "no.such.host" 5672 true).1
        = .thrown (.runtime_error "Name or service not known") ∧
      (AddressInfo.construct sample_platform sample_world "no.such.host" 5672 true).2.clock_reads
        = 0 ∧
      ¬ (∀ o, (AddressInfo.construct sample_platform sample_world "localhost" 5672 true).1
        ≠ .returned o) := by
  have h := construct_fails_iff_lookup_code_nonzero sample_platform sample_world
    "no.such.host" 5672 true
  have h' := construct_fails_iff_lookup_code_nonzero sample_platform sample_world
    "localhost" 5672 true
  refine ⟨(h.2 (by decide)).1.trans (by decide), (h.2 (by decide)).2.2.1, ?_⟩
  rw [h'.1]
  decide

/-! ## C4: the view in lookup order -/

/-- C4: when the lookup succeeds with a list of `n` records and `randomOrder` is false,
the constructed view has `size() = n` and `operator[](i)` is, for every `i` in `[0, n)`
that an `int` can hold, the record reached from the head by following `ai_next` `i`
times; every construction (any platform, world, host or port) whose lookup returns the
same list yields the same view. -/
theorem plain_view_is_lookup_order {S : Type} (P : Platform S) (w : World S)
    (hostname : String) (port : Nat)
    (hc : (P.getaddrinfo hostname (to_string port) hints).1 = 0) :
    ∃ o, (AddressInfo.construct P w hostname port false).1 = .returned o ∧
      o.size = list_length (P.getaddrinfo hostname (to_string port) hints).2 ∧
      (∀ i : Nat, i < list_length (P.getaddrinfo hostname (to_string port) hints).2 →
        i < 2 ^ 31 →
        follow i (P.getaddrinfo hostname (to_string port) hints).2 ≠ .nullptr ∧
        o.subscript (i : Int)
          = .returned (follow i (P.getaddrinfo hostname (to_string port) hints).2)) ∧
      (∀ (S2 : Type) (P2 : Platform S2) (w2 : World S2) (hostname2 : String) (port2 : Nat),
        P2.getaddrinfo hostname2 (to_string port2) hints
          = (0, (P.getaddrinfo hostname (to_string port) hints).2) →
        view_of (AddressInfo.construct P2 w2 hostname2 port2 false).1 = some o._v) := by
  rw [construct_plain P w hostname port hc]
  refine ⟨_, rfl, ?_, ?_, ?_⟩
  · simp [AddressInfo.size, collect_length]
  · intro i hi h31
    refine ⟨follow_ne_nullptr _ i hi, ?_⟩
    have h0 : (0 : Int) ≤ (i : Int) := Int.ofNat_nonneg i
    have h1 : (i : Int) < 2 ^ 31 := by exact_mod_cast h31
    simp [AddressInfo.subscript, vector_subscript, to_size_t_of_nonneg (i : Int) h0 h1,
      collect_getElem? _ i hi]
  · intro S2 P2 w2 hostname2 port2 h2
    have hc2 : (P2.getaddrinfo hostname2 (to_string port2) hints).1 = 0 := by rw [h2]
    rw [construct_plain P2 w2 hostname2 port2 hc2, h2]
    rfl

/-- C4, at the sample lookup: the view is the three records in list order. -/
theorem plain_view_is_lookup_order_witness :
    (sample_platform.getaddrinfo "localhost" (to_string 5672) hints).1 = 0 ∧
      ∃ o, (AddressInfo.construct sample_platform sample_world "localhost" 5672 false).1
          = .returned o ∧ o.size = 3 ∧ o.subscript 2 = .returned sample_c := by
  refine ⟨by decide, ?_⟩
  obtain ⟨o, ho, hsz, hsub, _⟩ :=
    plain_view_is_lookup_order sample_platform sample_world "localhost" 5672 (by decide)
  refine ⟨o, ho, hsz.trans (by decide), ?_⟩
  have h := (hsub 2 (by decide) (by decide)).2
  rw [show ((2 : Nat) : Int) = 2 from rfl] at h
  rw [h]
  decide

/-! ## C5: the randomized view is a permutation -/

/-- C5: when the lookup succeeds, for every generator (any `srand`, `rand` and state) the
view built with `randomOrder = true` is a permutation of the view built with
`randomOrder = false` from the same lookup result: same size, same multiset of records,
and each element is a record of the list that this instance's `_info` heads. -/
theorem random_view_is_permutation_of_plain {S : Type} (P : Platform S) (w w2 : World S)
    (hostname : String) (port : Nat)
    (hc : (P.getaddrinfo hostname (to_string port) hints).1 = 0) :
    ∃ o o2, (AddressInfo.construct P w hostname port true).1 = .returned o ∧
      (AddressInfo.construct P w2 hostname port false).1 = .returned o2 ∧
      List.Perm o._v o2._v ∧ o.size = o2.size ∧
      (o._v : Multiset addrinfo_ptr) = (o2._v : Multiset addrinfo_ptr) ∧
      o._info.head = (P.getaddrinfo hostname (to_string port) hints).2 ∧
      ∀ x ∈ o._v, x ≠ .nullptr ∧
        ∃ i, i < list_length o._info.head ∧ x = follow i o._info.head := by
  rw [construct_random P w hostname port hc, construct_plain P w2 hostname port hc]
  have hp := random_shuffle_perm P.rand (P.srand (seed_of w.clock))
    (collect (P.getaddrinfo hostname (to_string port) hints).2 [])
  refine ⟨_, _, rfl, rfl, hp, hp.length_eq, Quotient.sound hp, rfl, ?_⟩
  intro x hx
  obtain ⟨i, hi, rfl⟩ := mem_collect _ x (hp.subset hx)
  exact ⟨follow_ne_nullptr _ i hi, i, hi, rfl⟩

/-- C5, at the sample lookup: the randomized view is the three records in the order
b, c, a, a permutation of the plain view. -/
theorem random_view_is_permutation_of_plain_witness :
    (sample_platform.getaddrinfo "localhost" (to_string 5672) hints).1 = 0 ∧
      (AddressInfo.construct sample_platform sample_world "localhost" 5672 true).1
        = .returned ⟨⟨0, sample_a⟩, [sample_b, sample_c, sample_a]⟩ ∧
      ∃ o o2, (AddressInfo.construct sample_platform sample_world "localhost" 5672 true).1
          = .returned o ∧
        (AddressInfo.construct sample_platform sample_world "localhost" 5672 false).1
          = .returned o2 ∧ List.Perm o._v o2._v := by
  refine ⟨by decide, by decide, ?_⟩
  obtain ⟨o, o2, h1, h2, hp, _⟩ := random_view_is_permutation_of_plain sample_platform
    sample_world sample_world "localhost" 5672 (by decide)
  exact ⟨o, o2, h1, h2, hp⟩

/-! ## C7: acquisition and release of the result set -/

theorem subscript_of_within (o : AddressInfo) (i : Int) (h0 : 0 ≤ i) (h1 : i < o.size)
    (h31 : i < 2 ^ 31) : ∃ a, o.subscript i = .returned a := by
  unfold AddressInfo.size at h1
  have hlt : i.toNat < o._v.length := by omega
  refine ⟨o._v[i.toNat], ?_⟩
  simp [AddressInfo.subscript, vector_subscript, to_size_t_of_nonneg i h0 h31,
    List.getElem?_eq_getElem hlt]

theorem subscript_of_outside (o : AddressInfo) (i : Int) (hlo : -2 ^ 31 ≤ i)
    (hhi : i < 2 ^ 31) (hs : o.size < 2 ^ 63) (h : i < 0 ∨ (o.size : Int) ≤ i) :
    o.subscript i = .undefined := by
  unfold AddressInfo.size at hs h
  have hge : o._v.length ≤ to_size_t i := by
    rcases h with h | h
    · have := to_size_t_of_neg i hlo h
      omega
    · rw [to_size_t_of_nonneg i (by omega) hhi]
      omega
  simp [AddressInfo.subscript, vector_subscript, List.getElem?_eq_none hge]

theorem run_calls_of_within (o : AddressInfo) (calls : List AddressInfo.Call)
    (h : ∀ c ∈ calls, c.within o.size) : o.run_calls calls = .returned (calls.map o.call) := by
  induction calls with
  | nil => rfl
  | cons c cs ih =>
    have hc := h c (List.mem_cons_self c cs)
    have hd : (o.call c).is_undefined = false := by
      cases c with
      | size => rfl
      | subscript i =>
        obtain ⟨h0, h1, h31⟩ := hc
        obtain ⟨a, ha⟩ := subscript_of_within o i h0 h1 h31
        simp [AddressInfo.call, ha, AddressInfo.Reply.is_undefined]
    simp [AddressInfo.run_calls, hd, ih (fun x hx => h x (List.mem_cons_of_mem c hx))]

theorem run_calls_never_thrown (o : AddressInfo) (calls : List AddressInfo.Call) :
    ∀ e, o.run_calls calls ≠ .thrown e := by
  induction calls with
  | nil => intro e h; cases h
  | cons c cs ih =>
    intro e
    simp only [AddressInfo.run_calls]
    split
    · intro h; cases h
    · split
      · intro h; cases h
      · rename_i e2 he
        exact absurd he (ih e2)
      · intro h; cases h

theorem run_calls_of_outside (o : AddressInfo) (calls : List AddressInfo.Call) (i : Int)
    (hmem : AddressInfo.Call.subscript i ∈ calls) (hu : o.subscript i = .undefined) :
    o.run_calls calls = .undefined := by
  induction calls with
  | nil => simp at hmem
  | cons c cs ih =>
    simp only [AddressInfo.run_calls]
    split
    · rfl
    · rename_i hd
      have hcs : AddressInfo.Call.subscript i ∈ cs := by
        rcases List.mem_cons.mp hmem with h | h
        · subst h
          simp [AddressInfo.call, hu, AddressInfo.Reply.is_undefined] at hd
        · exact h
      rw [ih hcs]

theorem size_of_construct {S : Type} (P : Platform S) (w : World S) (hostname : String)
    (port : Nat) (randomOrder : Bool) (o : AddressInfo)
    (h : (AddressInfo.construct P w hostname port randomOrder).1 = .returned o) :
    o.size = list_length (P.getaddrinfo hostname (to_string port) hints).2 := by
  obtain ⟨_, _, hperm⟩ := construct_returned P w hostname port randomOrder o h
  unfold AddressInfo.size
  rw [hperm.length_eq, collect_length]

theorem construct_succeeds {S : Type} (P : Platform S) (w : World S) (hostname : String)
    (port : Nat) (randomOrder : Bool)
    (hc : (P.getaddrinfo hostname (to_string port) hints).1 = 0) :
    ∃ o w1, AddressInfo.construct P w hostname port randomOrder = (.returned o, w1) ∧
      o._info.set = w.acquired ∧ w1.acquired = w.acquired + 1 ∧ w1.released = w.released := by
  cases randomOrder with
  | false =>
    rw [construct_plain P w hostname port hc]
    exact ⟨_, _, rfl, rfl, rfl, rfl⟩
  | true =>
    rw [construct_random P w hostname port hc]
    exact ⟨_, _, rfl, rfl, rfl, rfl⟩

/-- C7, as stated, fails: on the sample platform the lifetime of a successfully
constructed instance with three addresses whose holder calls `size()`, `operator[](7)` and
`operator[](0)` is undefined from the second call on (the unchecked access of C1), so it
does not end with the result set released exactly once. -/
theorem lifetime_with_access_outside_view_is_undefined :
    (AddressInfo.construct sample_platform sample_world "localhost" 5672 true).1
        = .returned ⟨⟨0, sample_a⟩, [sample_b, sample_c, sample_a]⟩ ∧
      AddressInfo.subscript ⟨⟨0, sample_a⟩, [sample_b, sample_c, sample_a]⟩ 7
        = .undefined ∧
      AddressInfo.lifetime sample_platform sample_world "localhost" 5672 true
        [.size, .subscript 7, .subscript 0] = .undefined ∧
      ¬ (∃ replies w2, AddressInfo.lifetime sample_platform sample_world "localhost" 5672 true
        [.size, .subscript 7, .subscript 0] = .completed replies w2) := by
  have h : AddressInfo.lifetime sample_platform sample_world "localhost" 5672 true
      [.size, .subscript 7, .subscript 0] = .undefined := by rfl
  refine ⟨by decide, by decide, h, ?_⟩
  rintro ⟨replies, w2, h2⟩
  rw [h] at h2
  cases h2

/-- C7 (amended): over the lifetime of an instance built by the constructor, for every
sequence of `size()` calls and `operator[]` calls with an `int` index in `[0, size())`:
when the lookup succeeds, exactly one result set is acquired and `freeaddrinfo` is called
exactly once, on that set, after the replies of the calls; a lifetime with an
`operator[]` call outside `[0, size())` is undefined from that call on. When the lookup
fails, whatever the calls, the constructor throws, nothing is acquired and nothing
released. The destructor adds to the released sets only its own: for an instance that
holds another result set the release count of its set is unchanged and it stays live; and
an instance constructed in any later world (no constructor or destructor lowers the count
of acquired sets) holds another result set. -/
theorem lifetime_with_calls_in_range_releases_own_set_once {S : Type} (P : Platform S)
    (w : World S) (hostname : String) (port : Nat) (randomOrder : Bool)
    (calls : List AddressInfo.Call) :
    ((P.getaddrinfo hostname (to_string port) hints).1 = 0 →
        (∀ c ∈ calls,
          c.within (list_length (P.getaddrinfo hostname (to_string port) hints).2)) →
        ∃ o w2, (AddressInfo.construct P w hostname port randomOrder).1 = .returned o ∧
          o._info.set = w.acquired ∧
          AddressInfo.lifetime P w hostname port randomOrder calls
            = .completed (calls.map o.call) w2 ∧
          w2.acquired = w.acquired + 1 ∧
          w2.released = w.released ++ [o._info.set]) ∧
      ((P.getaddrinfo hostname (to_string port) hints).1 = 0 →
        list_length (P.getaddrinfo hostname (to_string port) hints).2 < 2 ^ 63 →
        (∃ i : Int, AddressInfo.Call.subscript i ∈ calls ∧ -2 ^ 31 ≤ i ∧ i < 2 ^ 31 ∧
          (i < 0 ∨
            (list_length (P.getaddrinfo hostname (to_string port) hints).2 : Int) ≤ i)) →
        AddressInfo.lifetime P w hostname port randomOrder calls = .undefined) ∧
      ((P.getaddrinfo hostname (to_string port) hints).1 ≠ 0 →
        ∃ w2, AddressInfo.lifetime P w hostname port randomOrder calls
            = .failed (.runtime_error
                (P.gai_strerror (P.getaddrinfo hostname (to_string port) hints).1)) w2 ∧
          w2.acquired = w.acquired ∧ w2.released = w.released) ∧
      (∀ (a b : AddressInfo) (w2 : World S), a._info.set ≠ b._info.set →
        (a.destruct w2).released.count b._info.set = w2.released.count b._info.set ∧
        (b.live w2 → b.live (a.destruct w2)) ∧
        (a.destruct w2).acquired = w2.acquired) ∧
      (∀ (a b : AddressInfo) (w2 : World S) (hostname2 : String) (port2 : Nat)
          (randomOrder2 : Bool),
        (AddressInfo.construct P w hostname port randomOrder).1 = .returned a →
        (AddressInfo.construct P w hostname port randomOrder).2.acquired ≤ w2.acquired →
        (AddressInfo.construct P w2 hostname2 port2 randomOrder2).1 = .returned b →
        a._info.set ≠ b._info.set) ∧
      w.acquired ≤ (AddressInfo.construct P w hostname port randomOrder).2.acquired := by
  refine ⟨?_, ?_, ?_, ?_, ?_, ?_⟩
  · intro hc hin
    obtain ⟨o, w1, hcon, hset, hacq, hrel⟩ :=
      construct_succeeds P w hostname port randomOrder hc
    have ho : (AddressInfo.construct P w hostname port randomOrder).1 = .returned o := by
      rw [hcon]
    have hsz := size_of_construct P w hostname port randomOrder o ho
    have hrun := run_calls_of_within o calls (by rw [hsz]; exact hin)
    refine ⟨o, o.destruct w1, ho, hset, ?_, hacq, ?_⟩
    · simp only [AddressInfo.lifetime, hcon, hrun]
    · simp only [AddressInfo.destruct, hrel]
  · rintro hc hs ⟨i, hmem, hlo, hhi, hout⟩
    obtain ⟨o, w1, hcon, _, _, _⟩ := construct_succeeds P w hostname port randomOrder hc
    have ho : (AddressInfo.construct P w hostname port randomOrder).1 = .returned o := by
      rw [hcon]
    have hsz := size_of_construct P w hostname port randomOrder o ho
    have hu := subscript_of_outside o i hlo hhi (by rw [hsz]; exact hs) (by rw [hsz]; exact hout)
    have hrun := run_calls_of_outside o calls i hmem hu
    simp only [AddressInfo.lifetime, hcon, hrun]
  · intro hc
    simp only [AddressInfo.lifetime, construct_throws P w hostname port randomOrder hc]
    exact ⟨_, rfl, rfl, rfl⟩
  · intro a b w2 hab
    refine ⟨?_, ?_, rfl⟩
    · simp only [AddressInfo.destruct, List.count_append]
      rw [List.count_singleton]
      simp [hab]
    · rintro ⟨h1, h2⟩
      refine ⟨h1, ?_⟩
      simp only [AddressInfo.destruct, List.mem_append, List.mem_singleton, not_or]
      exact ⟨h2, fun h => hab h.symm⟩
  · intro a b w2 hostname2 port2 randomOrder2 ha hle hb
    obtain ⟨hc, hia, _⟩ := construct_returned P w hostname port randomOrder a ha
    obtain ⟨_, hib, _⟩ := construct_returned P w2 hostname2 port2 randomOrder2 b hb
    obtain ⟨o, w1, hcon, _, hacq, _⟩ := construct_succeeds P w hostname port randomOrder hc
    rw [hcon] at hle
    have hle2 : w1.acquired ≤ w2.acquired := hle
    rw [hia, hib]
    intro h
    have h3 : w.acquired = w2.acquired := h
    omega
  · by_cases hc : (P.getaddrinfo hostname (to_string port) hints).1 = 0
    · obtain ⟨o, w1, hcon, _, hacq, _⟩ := construct_succeeds P w hostname port randomOrder hc
      rw [hcon]
      show w.acquired ≤ w1.acquired
      omega
    · rw [construct_throws P w hostname port randomOrder hc]

/-- C7 (amended), at the sample platform: the lifetime of an instance for "localhost" with
the calls `size()`, `operator[](2)`, `operator[](0)` completes with result set 0
released once; the lifetime of a failed construction ends with nothing released; and
destroying the first of two instances leaves the second, which holds result set 1,
live. -/
theorem lifetime_with_calls_in_range_releases_own_set_once_witness :
    (∃ w2, AddressInfo.lifetime sample_platform sample_world "localhost" 5672 true
        [.size, .subscript 2, .subscript 0]
        = .completed [.size 3, .subscript (.returned sample_a), .subscript (.returned sample_b)]
            w2 ∧ w2.acquired = 1 ∧ w2.released = [0]) ∧
      (∃ w2, AddressInfo.lifetime sample_platform sample_world "no.such.host" 5672 true
        [.size] = .failed (.runtime_error "Name or service not known") w2 ∧
        w2.released = []) ∧
      AddressInfo.live ⟨⟨1, sample_a⟩, [sample_a, sample_b, sample_c]⟩
        (sample_object.destruct
          (AddressInfo.construct sample_platform
            (AddressInfo.construct sample_platform sample_world "localhost").2
            "localhost").2) := by
  have h1 := (lifetime_with_calls_in_range_releases_own_set_once sample_platform sample_world
    "localhost" 5672 true [.size, .subscript 2, .subscript 0]).1 (by decide) (by decide)
  have h2 := (lifetime_with_calls_in_range_releases_own_set_once sample_platform sample_world
    "no.such.host" 5672 true [.size]).2.2.1 (by decide)
  have h3 := ((lifetime_with_calls_in_range_releases_own_set_once sample_platform sample_world
    "localhost" 5672 false []).2.2.2.1 sample_object
    ⟨⟨1, sample_a⟩, [sample_a, sample_b, sample_c]⟩
    (AddressInfo.construct sample_platform
      (AddressInfo.construct sample_platform sample_world "localhost").2
      "localhost").2 (by decide)).2.1 (by decide)
  refine ⟨?_, ?_, h3⟩
  · obtain ⟨o, w2, ho, hs, hl, ha, hr⟩ := h1
    have hv : (AddressInfo.construct sample_platform sample_world "localhost" 5672 true).1
        = .returned ⟨⟨0, sample_a⟩, [sample_b, sample_c, sample_a]⟩ := by decide
    rw [hv] at ho
    cases ho
    exact ⟨w2, hl, ha, hr⟩
  · obtain ⟨w2, hl, _, hr⟩ := h2
    exact ⟨w2, hl, hr⟩

/-! ## C8: the clock and the generator -/

/-- C8: with `randomOrder = false` the constructor does not read the clock and leaves the
generator state and the seeds given to `srand` as they were; with `randomOrder = true`
the same holds when the lookup fails, and when it succeeds the clock is read exactly once
and `srand` is called exactly once, with the seed computed from that reading. -/
theorem clock_and_generator_touched_only_when_random {S : Type} (P : Platform S)
    (w : World S) (hostname : String) (port : Nat) :
    ((AddressInfo.construct P w hostname port false).2.clock_reads = w.clock_reads ∧
        (AddressInfo.construct P w hostname port false).2.rng = w.rng ∧
        (AddressInfo.construct P w hostname port false).2.seeds = w.seeds ∧
        (AddressInfo.construct P w hostname port false).2.clock = w.clock) ∧
      ((P.getaddrinfo hostname (to_string port) hints).1 ≠ 0 →
        (AddressInfo.construct P w hostname port true).2.clock_reads = w.clock_reads ∧
        (AddressInfo.construct P w hostname port true).2.rng = w.rng ∧
        (AddressInfo.construct P w hostname port true).2.seeds = w.seeds) ∧
      ((P.getaddrinfo hostname (to_string port) hints).1 = 0 →
        (AddressInfo.construct P w hostname port true).2.clock_reads = w.clock_reads + 1 ∧
        (AddressInfo.construct P w hostname port true).2.seeds
          = w.seeds ++ [seed_of w.clock]) := by
  refine ⟨?_, ?_, ?_⟩
  · by_cases hc : (P.getaddrinfo hostname (to_string port) hints).1 = 0
    · rw [construct_plain P w hostname port hc]
      exact ⟨rfl, rfl, rfl, rfl⟩
    · rw [construct_throws P w hostname port false hc]
      exact ⟨rfl, rfl, rfl, rfl⟩
  · intro hc
    rw [construct_throws P w hostname port true hc]
    exact ⟨rfl, rfl, rfl⟩
  · intro hc
    rw [construct_random P w hostname port hc]
    exact ⟨rfl, rfl⟩

/-- C8, at the sample platform: the plain construction leaves generator state 1 and no
clock read; the randomized one reads the clock once and seeds with 3487918203. -/
theorem clock_and_generator_touched_only_when_random_witness :
    (AddressInfo.construct sample_platform sample_world "localhost" 5672 false).2.rng = 1 ∧
      (AddressInfo.construct sample_platform sample_world "localhost" 5672 true).2.clock_reads
        = 1 ∧
      (AddressInfo.construct sample_platform sample_world "localhost" 5672 true).2.seeds
        = [3487918203] := by
  have h := clock_and_generator_touched_only_when_random sample_platform sample_world
    "localhost" 5672
  refine ⟨h.1.2.1, (h.2.2 (by decide)).1, (h.2.2 (by decide)).2.trans (by decide)⟩

/-! ## C10: the randomized order is a function of the list and the seed -/

/-- C10: the seed passed to `srand` is `tv_sec * 1000 + tv_usec / 1000` (truncating
division) reduced modulo 2^32, and the randomized view is the shuffle of the raw list by
the generator seeded with it: two constructions with `randomOrder = true` over the same
raw list whose clock readings give the same seed produce identical views, whatever the
generator states, hosts and ports were. -/
theorem random_view_is_function_of_list_and_seed {S : Type} (P : Platform S)
    (w1 w2 : World S) (hostname1 hostname2 : String) (port1 port2 : Nat) (res : addrinfo_ptr)
    (h1 : P.getaddrinfo hostname1 (to_string port1) hints = (0, res))
    (h2 : P.getaddrinfo hostname2 (to_string port2) hints = (0, res))
    (hs : (w1.clock.tv_sec * 1000 + Int.tdiv w1.clock.tv_usec 1000) % 2 ^ 32
      = (w2.clock.tv_sec * 1000 + Int.tdiv w2.clock.tv_usec 1000) % 2 ^ 32) :
    ∃ o1 o2, (AddressInfo.construct P w1 hostname1 port1 true).1 = .returned o1 ∧
      (AddressInfo.construct P w2 hostname2 port2 true).1 = .returned o2 ∧
      o1._v = o2._v ∧
      (AddressInfo.construct P w1 hostname1 port1 true).2.seeds = w1.seeds ++
        [((w1.clock.tv_sec * 1000 + Int.tdiv w1.clock.tv_usec 1000) % 2 ^ 32).toNat] ∧
      o1._v = (random_shuffle P.rand
        (P.srand ((w1.clock.tv_sec * 1000 + Int.tdiv w1.clock.tv_usec 1000) % 2 ^ 32).toNat)
        (collect res [])).1 := by
  have hc1 : (P.getaddrinfo hostname1 (to_string port1) hints).1 = 0 := by rw [h1]
  have hc2 : (P.getaddrinfo hostname2 (to_string port2) hints).1 = 0 := by rw [h2]
  have hseed : seed_of w1.clock = seed_of w2.clock := by
    simp only [seed_of, to_unsigned, hs]
  rw [construct_random P w1 hostname1 port1 hc1, construct_random P w2 hostname2 port2 hc2,
    h1, h2, hseed]
  exact ⟨_, _, rfl, rfl, rfl, by simp only [seed_of, to_unsigned, hs], by
    simp only [seed_of, to_unsigned, hs]⟩

/-- C10, at the sample platform: the clocks 1700000000.123456 and 1700000000.123999 give
the same seed, and the two randomized views are both b, c, a although the generator
states before construction differ. -/
theorem random_view_is_function_of_list_and_seed_witness :
    (sample_platform.getaddrinfo "localhost" (to_string 5672) hints = (0, sample_a) ∧
      sample_platform.getaddrinfo "localhost" (to_string 80) hints = (0, sample_a) ∧
      (sample_world.clock.tv_sec * 1000 + Int.tdiv sample_world.clock.tv_usec 1000) % 2 ^ 32
        = (sample_world_later.clock.tv_sec * 1000
            + Int.tdiv sample_world_later.clock.tv_usec 1000) % 2 ^ 32) ∧
      sample_world.rng ≠ sample_world_later.rng ∧
      ∃ o1 o2,
        (AddressInfo.construct sample_platform sample_world "localhost" 5672 true).1
          = .returned o1 ∧
        (AddressInfo.construct sample_platform sample_world_later "localhost" 80 true).1
          = .returned o2 ∧
        o1._v = o2._v ∧ o1._v = [sample_b, sample_c, sample_a] := by
  refine ⟨⟨by decide, by decide, by decide⟩, by decide, ?_⟩
  obtain ⟨o1, o2, h1, h2, hv, _, _⟩ := random_view_is_function_of_list_and_seed
    sample_platform sample_world sample_world_later "localhost" "localhost" 5672 80 sample_a
    (by decide) (by decide) (by decide)
  refine ⟨o1, o2, h1, h2, hv, ?_⟩
  have h : (AddressInfo.construct sample_platform sample_world "localhost" 5672 true).1
      = .returned ⟨⟨0, sample_a⟩, [sample_b, sample_c, sample_a]⟩ := by decide
  rw [h] at h1
  cases h1
  rfl

/-! ## C9: the arguments of the lookup -/

theorem digit_char_isDigit (d : Nat) (h : d < 10) : (digit_char d).isDigit = true := by
  interval_cases d <;> decide

theorem digit_char_toNat (d : Nat) (h : d < 10) : (digit_char d).toNat - 48 = d := by
  interval_cases d <;> decide

theorem digit_char_ne_zero (d : Nat) (h : d < 10) (h0 : d ≠ 0) : digit_char d ≠ '0' := by
  interval_cases d <;> first | exact absurd rfl h0 | decide

/-- Reading the digits `L` (least significant first, written most significant first)
after a value `a` already read. -/
theorem foldl_digits (L : List Nat) (hL : ∀ d ∈ L, d < 10) (a : Nat) :
    (L.reverse.map digit_char).foldl
      (fun acc c => acc.bind fun n =>
        if c.isDigit then some (10 * n + (c.toNat - 48)) else none) (some a)
      = some (a * 10 ^ L.length + Nat.ofDigits 10 L) := by
  induction L with
  | nil => simp
  | cons d L ih =>
    have hd : d < 10 := hL d (List.mem_cons_self d L)
    have hL2 : ∀ x ∈ L, x < 10 := fun x hx => hL x (List.mem_cons_of_mem d hx)
    rw [List.reverse_cons, List.map_append, List.foldl_append, ih hL2]
    simp only [List.map_cons, List.map_nil, List.foldl_cons, List.foldl_nil, Option.bind,
      digit_char_isDigit d hd, digit_char_toNat d hd, if_true, List.length_cons,
      Nat.ofDigits_cons]
    congr 1
    ring

theorem to_string_data (n : Nat) (h : n ≠ 0) :
    (to_string n).data = (Nat.digits 10 n).reverse.map digit_char := by
  simp [to_string, h]

theorem parse_to_string (n : Nat) : parse_decimal (to_string n) = some n := by
  by_cases h : n = 0
  · subst h
    decide
  · have hne : Nat.digits 10 n ≠ [] := by
      simpa [Nat.digits_eq_nil_iff_eq_zero] using h
    unfold parse_decimal
    rw [to_string_data n h, if_neg (by simpa using hne),
      foldl_digits _ (fun d hd => Nat.digits_lt_base (by norm_num) hd) 0, Nat.ofDigits_digits]
    simp

/-- C9: for every 16-bit port, the service string handed to the lookup is the canonical
decimal form of the port: digits only, no leading zero unless the port is 0, and read
back as a decimal number it is the port; with the port omitted it is "5672". The
constructor calls the lookup exactly once, with the caller's host name, that string, and
hints that are zero in every field but `ai_family = AF_UNSPEC` and
`ai_socktype = SOCK_STREAM`. -/
theorem lookup_called_once_with_decimal_port {S : Type} (P : Platform S) (w : World S)
    (hostname : String) (port : Nat) (randomOrder : Bool) (hp : port < 65536) :
    (AddressInfo.construct P w hostname port randomOrder).2.lookups
        = w.lookups ++ [(hostname, to_string port, hints)] ∧
      parse_decimal (to_string port) = some port ∧
      (to_string port).data ≠ [] ∧
      (∀ c ∈ (to_string port).data, c.isDigit = true) ∧
      (port ≠ 0 → (to_string port).data.head? ≠ some '0') ∧
      (to_string 0 = "0") ∧
      (AddressInfo.construct P w hostname).2.lookups
        = w.lookups ++ [(hostname, "5672", hints)] ∧
      hints = .ptr 0 AF_UNSPEC SOCK_STREAM 0 0 none none .nullptr := by
  have hlook : ∀ (q : Nat) (r : Bool), (AddressInfo.construct P w hostname q r).2.lookups
      = w.lookups ++ [(hostname, to_string q, hints)] := by
    intro q r
    by_cases hc : (P.getaddrinfo hostname (to_string q) hints).1 = 0
    · cases r with
      | false => rw [construct_plain P w hostname q hc]
      | true => rw [construct_random P w hostname q hc]
    · rw [construct_throws P w hostname q r hc]
  refine ⟨hlook port randomOrder, parse_to_string port, ?_, ?_, ?_, by decide, ?_, rfl⟩
  · by_cases h : port = 0
    · subst h; decide
    · rw [to_string_data port h]
      simpa [Nat.digits_eq_nil_iff_eq_zero] using h
  · by_cases h : port = 0
    · subst h; decide
    · intro c hc
      rw [to_string_data port h] at hc
      obtain ⟨d, hd, rfl⟩ := List.mem_map.mp hc
      exact digit_char_isDigit d (Nat.digits_lt_base (by norm_num) (List.mem_reverse.mp hd))
  · intro h
    have hne : Nat.digits 10 port ≠ [] := by
      simpa [Nat.digits_eq_nil_iff_eq_zero] using h
    rw [to_string_data port h, List.head?_map, List.head?_reverse,
      List.getLast?_eq_getLast _ hne]
    simp only [Option.map_some', ne_eq, Option.some.injEq]
    exact digit_char_ne_zero _
      (Nat.digits_lt_base (by norm_num) (List.getLast_mem hne))
      (Nat.getLast_digit_ne_zero 10 h)
  · rw [hlook 5672 false]
    have : to_string 5672 = "5672" := by simp [to_string, digit_char]
    rw [this]

/-- C9, at port 5672 on the sample platform: the one lookup made is for "localhost",
"5672" and the hints. -/
theorem lookup_called_once_with_decimal_port_witness :
    5672 < 65536 ∧
      (AddressInfo.construct sample_platform sample_world "localhost" 5672 true).2.lookups
        = [("localhost", "5672", hints)] ∧
      parse_decimal "5672" = some 5672 := by
  have h := lookup_called_once_with_decimal_port sample_platform sample_world "localhost"
    5672 true (by decide)
  have hs : to_string 5672 = "5672" := by simp [to_string, digit_char]
  refine ⟨by decide, ?_, ?_⟩
  · rw [h.1, hs]
    rfl
  · rw [← hs]
    exact h.2.1

/-! ## The shuffle as a bijection from reduced draws to orderings -/

theorem iter_swap_length {α : Type} (l : List α) (i j : Nat) :
    (iter_swap l i j).length = l.length := (iter_swap_perm l i j).length_eq

theorem iter_swap_getElem? {α : Type} (l : List α) (i j : Nat) (hi : i < l.length)
    (hj : j < l.length) (t : Nat) :
    (iter_swap l i j)[t]? = if t = j then l[i]? else if t = i then l[j]? else l[t]? := by
  simp only [iter_swap, List.getElem?_eq_getElem hi, List.getElem?_eq_getElem hj]
  rw [List.getElem?_set, List.getElem?_set]
  by_cases h1 : j = t
  · subst h1
    simp [hi, hj]
  · have h1' : ¬ t = j := fun h => h1 h.symm
    by_cases h2 : i = t
    · subst h2
      simp [h1, h1', hi, hj]
    · have h2' : ¬ t = i := fun h => h2 h.symm
      simp [h1, h1', h2, h2']

theorem iter_swap_self {α : Type} (l : List α) (i : Nat) : iter_swap l i i = l := by
  by_cases hi : i < l.length
  · apply List.ext_getElem?
    intro t
    rw [iter_swap_getElem? l i i hi hi]
    by_cases h : t = i
    · simp [h]
    · simp [h]
  · simp [iter_swap, List.getElem?_eq_none (Nat.le_of_not_lt hi)]

theorem iter_swap_involutive {α : Type} (l : List α) (i j : Nat) (hi : i < l.length)
    (hj : j < l.length) : iter_swap (iter_swap l i j) i j = l := by
  apply List.ext_getElem?
  intro t
  rw [iter_swap_getElem? _ i j (by rw [iter_swap_length]; exact hi)
    (by rw [iter_swap_length]; exact hj), iter_swap_getElem? l i j hi hj,
    iter_swap_getElem? l i j hi hj, iter_swap_getElem? l i j hi hj]
  by_cases h1 : t = j
  · by_cases h2 : i = j
    · simp [h1, h2]
    · simp [h1, h2]
  · by_cases h2 : t = i
    · subst h2
      simp [h1]
    · simp [h1, h2]

theorem iter_swap_append {α : Type} (l r : List α) (i j : Nat) (hi : i < l.length)
    (hj : j < l.length) : iter_swap (l ++ r) i j = iter_swap l i j ++ r := by
  apply List.ext_getElem?
  intro t
  rw [iter_swap_getElem? (l ++ r) i j (by simp; omega) (by simp; omega)]
  have e1 : (l ++ r)[i]? = l[i]? := List.getElem?_append_left hi
  have e2 : (l ++ r)[j]? = l[j]? := List.getElem?_append_left hj
  have hlen : (iter_swap l i j).length = l.length := iter_swap_length l i j
  by_cases ht : t < l.length
  · have e3 : (l ++ r)[t]? = l[t]? := List.getElem?_append_left ht
    have e4 : (iter_swap l i j ++ r)[t]? = (iter_swap l i j)[t]? :=
      List.getElem?_append_left (by omega)
    rw [e1, e2, e3, e4, iter_swap_getElem? l i j hi hj]
  · have ht2 : l.length ≤ t := Nat.le_of_not_lt ht
    have e3 : (l ++ r)[t]? = r[t - l.length]? := List.getElem?_append_right ht2
    have e4 : (iter_swap l i j ++ r)[t]? = r[t - (iter_swap l i j).length]? :=
      List.getElem?_append_right (by omega)
    rw [e4, hlen, if_neg (by omega), if_neg (by omega), e3]

/-- One iteration of the shuffle loop at position `i` with the value `r` drawn. -/
theorem random_shuffle_loop_succ {S α : Type} (rand : S → Nat × S) (k i : Nat) (s : S)
    (v : List α) :
    random_shuffle_loop rand (k + 1) i s v =
      random_shuffle_loop rand k (i + 1) (rand s).2
        (iter_swap v i ((rand s).1 % (i + 1))) := by
  rw [random_shuffle_loop]
  by_cases h : i = (rand s).1 % (i + 1)
  · simp only [ne_eq]
    rw [if_neg (not_not.mpr h), ← h, iter_swap_self]
  · simp only [ne_eq]
    rw [if_pos h]

/-- The last of `k + 1` iterations acts on what the first `k` produce. -/
theorem random_shuffle_loop_snoc {α : Type} (k : Nat) :
    ∀ (i : Nat) (rs : List Nat) (r : Nat) (v : List α), rs.length = k →
      (random_shuffle_loop stream_rand (k + 1) i (rs ++ [r]) v).1 =
        iter_swap (random_shuffle_loop stream_rand k i rs v).1 (i + k) (r % (i + k + 1)) := by
  induction k with
  | zero =>
    intro i rs r v h
    have : rs = [] := List.eq_nil_of_length_eq_zero h
    subst this
    rw [random_shuffle_loop_succ]
    simp [random_shuffle_loop, stream_rand]
  | succ k ih =>
    intro i rs r v h
    cases rs with
    | nil => simp at h
    | cons r0 rs =>
      have hk : rs.length = k := by simpa using h
      rw [random_shuffle_loop_succ, random_shuffle_loop_succ stream_rand k i]
      simp only [List.cons_append, stream_rand]
      rw [ih (i + 1) rs r _ hk]
      have e : i + 1 + k = i + (k + 1) := by omega
      rw [e]

/-- The loop over positions `i .. i + k - 1` leaves the positions from `i + k` on as
they are. -/
theorem random_shuffle_loop_untouched {S α : Type} (rand : S → Nat × S) (k : Nat) :
    ∀ (i : Nat) (s : S) (v : List α) (t : Nat), i + k ≤ v.length → i + k ≤ t →
      (random_shuffle_loop rand k i s v).1[t]? = v[t]? := by
  induction k with
  | zero => intro i s v t _ _; simp [random_shuffle_loop]
  | succ k ih =>
    intro i s v t hv ht
    rw [random_shuffle_loop_succ, ih (i + 1) _ _ t (by rw [iter_swap_length]; omega) (by omega)]
    have hj : (rand s).1 % (i + 1) < i + 1 := Nat.mod_lt _ (Nat.succ_pos i)
    rw [iter_swap_getElem? v i _ (by omega) (by omega), if_neg (by omega), if_neg (by omega)]

theorem random_shuffle_loop_length {S α : Type} (rand : S → Nat × S) (k i : Nat) (s : S)
    (v : List α) : (random_shuffle_loop rand k i s v).1.length = v.length :=
  (random_shuffle_loop_perm rand k i s v).length_eq

theorem bounded_snoc (rs : List Nat) (r : Nat) (hb : ∀ t (h : t < rs.length), rs[t] ≤ t + 1)
    (hr : r ≤ rs.length + 1) :
    ∀ t (h : t < (rs ++ [r]).length), (rs ++ [r])[t] ≤ t + 1 := by
  intro t h
  by_cases ht : t < rs.length
  · rw [List.getElem_append_left ht]
    exact hb t ht
  · have : t = rs.length := by
      simp only [List.length_append, List.length_singleton] at h
      omega
    subst this
    simpa using hr

/-- Each arrangement of the first `k + 1` elements is produced by exactly one list of
`k` reduced draws (the draw for position `t + 1` at most `t + 1`). -/
theorem random_shuffle_loop_bijective {α : Type} (v : List α) (hv : v.Nodup) :
    ∀ (k : Nat), k + 1 ≤ v.length → ∀ q : List α, List.Perm q (v.take (k + 1)) →
      ∃! rs : List Nat, rs.length = k ∧ (∀ t (h : t < rs.length), rs[t] ≤ t + 1) ∧
        (random_shuffle_loop stream_rand k 1 rs v).1 = q ++ v.drop (k + 1) := by
  intro k
  induction k with
  | zero =>
    intro hk q hq
    have h1 : v.take 1 = [v[0]] := by
      cases v with
      | nil => simp at hk
      | cons a l => simp
    rw [h1] at hq
    have hq2 : q = [v[0]] := List.perm_singleton.mp hq
    refine ⟨[], ⟨rfl, by simp, ?_⟩, ?_⟩
    · rw [hq2, ← h1]
      simp only [random_shuffle_loop]
      exact (List.take_append_drop 1 v).symm
    · rintro rs ⟨hlen, _, _⟩
      exact List.eq_nil_of_length_eq_zero hlen
  | succ k ih =>
    intro hk q2 hq2
    have hx : v.take (k + 2) = v.take (k + 1) ++ [v[k + 1]] := by
      rw [List.take_succ, List.getElem?_eq_getElem (by omega)]
      rfl
    have hdrop : v.drop (k + 1) = v[k + 1] :: v.drop (k + 2) :=
      List.drop_eq_getElem_cons (by omega)
    have hq2len : q2.length = k + 2 := by
      rw [hq2.length_eq, List.length_take]
      omega
    have hq2nd : q2.Nodup := (hq2.nodup_iff).mpr (hv.sublist (List.take_sublist _ _))
    have hmem : v[k + 1] ∈ q2 := by
      rw [hq2.mem_iff]
      show v[k + 1] ∈ List.take (k + 2) v
      rw [hx]
      exact List.mem_append_right _ (List.mem_singleton_self _)
    obtain ⟨j, hj, hjx⟩ := List.getElem_of_mem hmem
    have hsl : (iter_swap q2 (k + 1) j).length = k + 2 := by rw [iter_swap_length, hq2len]
    have hlast : (iter_swap q2 (k + 1) j)[k + 1]? = some v[k + 1] := by
      rw [iter_swap_getElem? q2 (k + 1) j (by omega) hj, ← hjx]
      by_cases h : k + 1 = j
      · subst h
        simp [List.getElem?_eq_getElem hj]
      · simp [h, List.getElem?_eq_getElem hj]
    have hsplit : iter_swap q2 (k + 1) j = (iter_swap q2 (k + 1) j).take (k + 1) ++ [v[k + 1]] := by
      conv_lhs => rw [← List.take_of_length_le (Nat.le_of_eq hsl), List.take_succ, hlast]
      rfl
    have hq : List.Perm ((iter_swap q2 (k + 1) j).take (k + 1)) (v.take (k + 1)) := by
      have h1 : List.Perm ((iter_swap q2 (k + 1) j).take (k + 1) ++ [v[k + 1]])
          (v.take (k + 1) ++ [v[k + 1]]) := by
        rw [← hsplit, ← hx]
        exact (iter_swap_perm q2 (k + 1) j).trans hq2
      exact (List.perm_append_right_iff _).mp h1
    obtain ⟨rs, ⟨hlen, hb, hloop⟩, huniq⟩ := ih (by omega) _ hq
    have hback : iter_swap (iter_swap q2 (k + 1) j ++ v.drop (k + 2)) (k + 1) j
        = q2 ++ v.drop (k + 2) := by
      rw [iter_swap_append _ _ _ _ (by omega) (by omega),
        iter_swap_involutive q2 (k + 1) j (by omega) hj]
    have hstate : (iter_swap q2 (k + 1) j).take (k + 1) ++ v.drop (k + 1)
        = iter_swap q2 (k + 1) j ++ v.drop (k + 2) := by
      rw [hdrop]
      conv_rhs => rw [hsplit]
      simp
    refine ⟨rs ++ [j], ⟨by simp [hlen], bounded_snoc rs j hb (by omega), ?_⟩, ?_⟩
    · rw [random_shuffle_loop_snoc k 1 rs j v hlen, hloop, hstate,
        Nat.mod_eq_of_lt (by omega), Nat.add_comm 1 k, hback]
    · rintro rs1 ⟨hlen1, hb1, hloop1⟩
      have hne : rs1 ≠ [] := by
        intro h
        rw [h] at hlen1
        simp at hlen1
      obtain ⟨rs0, r1, rfl⟩ : ∃ rs0 r1, rs1 = rs0 ++ [r1] :=
        ⟨rs1.dropLast, rs1.getLast hne, (List.dropLast_append_getLast hne).symm⟩
      have hlen0 : rs0.length = k := by simpa using hlen1
      have hr1 : r1 ≤ k + 1 := by
        have := hb1 k (by simp [hlen0])
        rw [List.getElem_append_right (by omega)] at this
        simpa [hlen0] using this
      rw [random_shuffle_loop_snoc k 1 rs0 r1 v hlen0, Nat.mod_eq_of_lt (by omega),
        Nat.add_comm 1 k] at hloop1
      have hYlen : (random_shuffle_loop stream_rand k 1 rs0 v).1.length = v.length :=
        random_shuffle_loop_length _ _ _ _ _
      have hY : (random_shuffle_loop stream_rand k 1 rs0 v).1[k + 1]? = some v[k + 1] := by
        rw [random_shuffle_loop_untouched stream_rand k 1 rs0 v (k + 1) (by omega) (by omega),
          List.getElem?_eq_getElem (by omega)]
      have hr1j : r1 = j := by
        have h1 := congrArg (fun l => l[r1]?) hloop1
        simp only at h1
        rw [iter_swap_getElem? _ (k + 1) r1 (by omega) (by omega), if_pos rfl, hY,
          List.getElem?_append_left (by omega), List.getElem?_eq_getElem (by omega)] at h1
        have h2 : q2[r1] = q2[j] := by
          rw [hjx]
          exact (Option.some.inj h1).symm
        exact (hq2nd.getElem_inj_iff).mp h2
      subst hr1j
      have hY2 : (random_shuffle_loop stream_rand k 1 rs0 v).1
          = (iter_swap q2 (k + 1) r1).take (k + 1) ++ v.drop (k + 1) := by
        rw [hstate, ← iter_swap_involutive (random_shuffle_loop stream_rand k 1 rs0 v).1
          (k + 1) r1 (by omega) (by omega), hloop1,
          iter_swap_append _ _ _ _ (by omega) (by omega)]
      have h0 : rs0 = rs := huniq rs0 ⟨hlen0, fun t h => by
        have := hb1 t (by simp; omega)
        rwa [List.getElem_append_left h] at this, hY2⟩
      rw [h0]

theorem list_length_follow_le (i : Nat) : ∀ p : addrinfo_ptr,
    list_length (follow i p) ≤ list_length p := by
  induction i with
  | zero => intro p; exact Nat.le_refl _
  | succ i ih =>
    intro p
    cases p with
    | nullptr => simpa [follow, addrinfo_ptr.ai_next] using ih .nullptr
    | ptr a b c d e f g n =>
      have := ih n
      simp only [follow, addrinfo_ptr.ai_next, list_length]
      omega

/-- The records of a result list are pairwise different pointers. -/
theorem collect_nodup (p : addrinfo_ptr) : (collect p []).Nodup := by
  induction p with
  | nullptr => simp [collect]
  | ptr a b c d e f g n ih =>
    rw [collect, collect_append]
    simp only [List.nil_append, List.singleton_append, List.nodup_cons]
    refine ⟨?_, ih⟩
    intro hmem
    obtain ⟨i, _, hi⟩ := mem_collect n _ hmem
    have h1 := list_length_follow_le i n
    rw [← hi] at h1
    simp only [list_length] at h1
    omega

theorem randomized_view_eq (res : addrinfo_ptr) (rs : List Nat) :
    randomized_view res rs = (random_shuffle stream_rand rs (collect res [])).1 := by
  unfold randomized_view
  rw [construct_random (stream_platform res rs) stream_world "host" 5672 rfl]
  rfl

theorem randomized_view_perm (res : addrinfo_ptr) (rs : List Nat) :
    List.Perm (randomized_view res rs) (collect res []) := by
  rw [randomized_view_eq]
  exact random_shuffle_perm _ _ _

/-- Each ordering of a list without repetition is what the shuffle produces from exactly
one list of reduced draws. -/
theorem random_shuffle_bijective {α : Type} (v : List α) (hv : v.Nodup) (p : List α)
    (hp : List.Perm p v) :
    ∃! rs : List Nat, rs.length = v.length - 1 ∧
      (∀ t (h : t < rs.length), rs[t] ≤ t + 1) ∧
      (random_shuffle stream_rand rs v).1 = p := by
  by_cases h0 : v.length = 0
  · have hv0 : v = [] := List.eq_nil_of_length_eq_zero h0
    subst hv0
    have hp0 : p = [] := List.Perm.eq_nil hp
    subst hp0
    refine ⟨[], ⟨rfl, by simp, by simp [random_shuffle]⟩, ?_⟩
    rintro rs ⟨hlen, _, _⟩
    exact List.eq_nil_of_length_eq_zero hlen
  · have hk : v.length - 1 + 1 = v.length := by omega
    have h := random_shuffle_loop_bijective v hv (v.length - 1) (by omega) p
      (by rw [hk, List.take_length]; exact hp)
    rw [hk, List.drop_length, List.append_nil] at h
    simpa [random_shuffle, h0] using h

/-- The shuffle uses each value drawn only through its remainder: the draw for position
`t + 1` modulo `t + 2`. -/
theorem random_shuffle_loop_reduced {α : Type} (k : Nat) :
    ∀ (i : Nat) (rs rs2 : List Nat) (v : List α),
      (∀ t, rs.getD t 0 % (i + t + 1) = rs2.getD t 0 % (i + t + 1)) →
      (random_shuffle_loop stream_rand k i rs v).1
        = (random_shuffle_loop stream_rand k i rs2 v).1 := by
  induction k with
  | zero => intro i rs rs2 v _; rfl
  | succ k ih =>
    intro i rs rs2 v h
    rw [random_shuffle_loop_succ, random_shuffle_loop_succ]
    have h0 : (stream_rand rs).1 % (i + 1) = (stream_rand rs2).1 % (i + 1) := by
      have := h 0
      cases rs <;> cases rs2 <;> simp_all [stream_rand]
    rw [h0]
    apply ih
    intro t
    have := h (t + 1)
    have e : i + (t + 1) + 1 = i + 1 + t + 1 := by omega
    rw [e] at this
    cases rs <;> cases rs2 <;> simp_all [stream_rand]

theorem randomized_view_reduced (res : addrinfo_ptr) (rs rs2 : List Nat)
    (h : ∀ t, rs.getD t 0 % (t + 2) = rs2.getD t 0 % (t + 2)) :
    randomized_view res rs = randomized_view res rs2 := by
  rw [randomized_view_eq, randomized_view_eq]
  unfold random_shuffle
  split
  · rfl
  · apply random_shuffle_loop_reduced
    intro t
    have := h t
    have e : 1 + t + 1 = t + 2 := by omega
    rw [e]
    exact this

/-! ## C6: how likely each ordering is -/

/-- Every filling of the draws yields one ordering, so the numbers of fillings per
ordering add up to the number of fillings, `m ^ k`. -/
theorem ways_sum (m k : Nat) (res : addrinfo_ptr) :
    ∑ p ∈ (collect res []).permutations.toFinset, ways m k res p = m ^ k := by
  have h := Finset.card_eq_sum_card_fiberwise
    (f := fun f : Fin k → Fin m => randomized_view res (List.ofFn fun i => (f i).val))
    (s := Finset.univ) (t := (collect res []).permutations.toFinset)
    (fun x _ => by
      rw [List.mem_toFinset, List.mem_permutations]
      exact randomized_view_perm res _)
  rw [Finset.card_univ, Fintype.card_fun, Fintype.card_fin, Fintype.card_fin] at h
  rw [h]
  rfl

theorem card_orderings (res : addrinfo_ptr) :
    (collect res []).permutations.toFinset.card = (list_length res).factorial := by
  rw [List.toFinset_card_of_nodup (List.nodup_permutations _ (collect_nodup res)),
    List.length_permutations, collect_length]

theorem seed_of_clock_of (seed : Nat) (h : seed < 2 ^ 32) :
    seed_of (clock_of seed) = seed := by
  have e : Int.tdiv ((seed % 1000 * 1000 : Nat) : Int) 1000 = ((seed % 1000 : Nat) : Int) := by
    rw [show (1000 : Int) = ((1000 : Nat) : Int) from rfl, ← Int.ofNat_tdiv]
    simp
  simp only [seed_of, clock_of, to_unsigned]
  rw [e]
  omega

theorem seeded_view_eq {S : Type} (P : Platform S) (w : World S) (hostname : String)
    (seed : Nat) (hc : (P.getaddrinfo hostname (to_string 5672) hints).1 = 0) :
    seeded_view P w hostname seed
      = (random_shuffle P.rand (P.srand (seed_of (clock_of seed)))
          (collect (P.getaddrinfo hostname (to_string 5672) hints).2 [])).1 := by
  unfold seeded_view
  rw [construct_random P _ hostname 5672 hc]
  rfl

theorem seed_ways_sum {S : Type} (P : Platform S) (w : World S) (hostname : String)
    (hc : (P.getaddrinfo hostname (to_string 5672) hints).1 = 0) :
    ∑ p ∈ (collect (P.getaddrinfo hostname (to_string 5672) hints).2 []).permutations.toFinset,
      seed_ways P w hostname p = 2 ^ 32 := by
  have h := Finset.card_eq_sum_card_fiberwise
    (f := fun s : Fin (2 ^ 32) => seeded_view P w hostname s.val)
    (s := Finset.univ)
    (t := (collect (P.getaddrinfo hostname (to_string 5672) hints).2 []).permutations.toFinset)
    (fun x _ => by
      rw [List.mem_toFinset, List.mem_permutations]
      show List.Perm (seeded_view P w hostname x.val) _
      rw [seeded_view_eq P w hostname _ hc]
      exact random_shuffle_perm _ _ _)
  rw [Finset.card_univ, Fintype.card_fin] at h
  rw [h]
  rfl

/-- Were all orderings produced by equally many seeds, the number of orderings would
divide the number of seeds. -/
theorem equally_many_seeds_forces_dvd {S : Type} (P : Platform S) (w : World S)
    (hostname : String) (res : addrinfo_ptr)
    (hr : P.getaddrinfo hostname (to_string 5672) hints = (0, res))
    (h : ∀ p q : List addrinfo_ptr, List.Perm p (collect res []) →
      List.Perm q (collect res []) →
      seed_ways P w hostname p = seed_ways P w hostname q) :
    (list_length res).factorial ∣ 2 ^ 32 := by
  have hc : (P.getaddrinfo hostname (to_string 5672) hints).1 = 0 := by rw [hr]
  have hsum := seed_ways_sum P w hostname hc
  rw [hr] at hsum
  have hconst : ∀ p ∈ (collect res []).permutations.toFinset,
      seed_ways P w hostname p = seed_ways P w hostname (collect res []) := by
    intro p hp
    rw [List.mem_toFinset, List.mem_permutations] at hp
    exact h p _ hp (List.Perm.refl _)
  rw [Finset.sum_congr rfl hconst, Finset.sum_const, card_orderings, smul_eq_mul] at hsum
  exact ⟨_, hsum.symm⟩

/-- Among the values `0 .. m - 1` of `rand()`, those with remainder `c` modulo `d`. -/
theorem card_remainder (m d c : Nat) (hc : c < d) :
    (Finset.univ.filter (fun x : Fin m => x.val % d = c)).card
      = m / d + if c < m % d then 1 else 0 := by
  have hd : 0 < d := by omega
  have h1 : (Finset.univ.filter (fun x : Fin m => x.val % d = c)).card
      = ((Finset.range m).filter (fun x => x ≡ c [MOD d])).card := by
    rw [← Finset.card_map Fin.valEmbedding]
    congr 1
    ext x
    simp only [Finset.mem_map, Finset.mem_filter, Finset.mem_univ, true_and,
      Fin.valEmbedding_apply, Finset.mem_range, Nat.ModEq, Nat.mod_eq_of_lt hc]
    constructor
    · rintro ⟨y, hy, rfl⟩
      exact ⟨y.isLt, hy⟩
    · rintro ⟨hx, hy⟩
      exact ⟨⟨x, hx⟩, hy, rfl⟩
  rw [h1, ← Nat.count_eq_card_filter_range, Nat.count_modEq_card m hd c, Nat.mod_eq_of_lt hc]

theorem getD_ofFn {k : Nat} (g : Fin k → Nat) (t : Nat) :
    (List.ofFn g).getD t 0 = if h : t < k then g ⟨t, h⟩ else 0 := by
  by_cases h : t < k
  · rw [dif_pos h, List.getD_eq_getElem _ _ (by simpa using h), List.getElem_ofFn]
  · rw [dif_neg h, List.getD_eq_default _ _ (by simpa using h)]

/-- The fillings of the draws that yield the ordering `p` are those whose remainders are
the reduced draws `rs` of `p`. -/
theorem randomized_view_eq_iff (m : Nat) (res : addrinfo_ptr) (p : List addrinfo_ptr)
    (rs : List Nat) (hlen : rs.length = list_length res - 1)
    (hb : ∀ t (h : t < rs.length), rs[t] ≤ t + 1) (hview : randomized_view res rs = p)
    (huniq : ∀ y : List Nat, y.length = list_length res - 1 ∧
      (∀ t (h : t < y.length), y[t] ≤ t + 1) ∧ randomized_view res y = p → y = rs)
    (f : Fin (list_length res - 1) → Fin m) :
    randomized_view res (List.ofFn fun i => (f i).val) = p ↔
      ∀ t : Fin (list_length res - 1), (f t).val % (t.val + 2) = rs.getD t.val 0 := by
  constructor
  · intro hf t
    have hred : randomized_view res (List.ofFn fun i => (f i).val % (i.val + 2))
        = randomized_view res (List.ofFn fun i => (f i).val) := by
      apply randomized_view_reduced
      intro u
      rw [getD_ofFn, getD_ofFn]
      split
      · exact Nat.mod_mod _ _
      · rfl
    have hy := huniq (List.ofFn fun i => (f i).val % (i.val + 2))
      ⟨by simp, fun u h => by
        rw [List.getElem_ofFn]
        have := Nat.mod_lt (f ⟨u, by simpa using h⟩).val (show 0 < u + 2 by omega)
        simp only [Fin.cast_mk]
        omega, hred.trans hf⟩
    rw [← hy, getD_ofFn, dif_pos t.isLt]
  · intro hf
    rw [← hview]
    apply randomized_view_reduced
    intro u
    rw [getD_ofFn]
    split
    · rename_i h
      rw [hf ⟨u, h⟩]
      have hu : u < rs.length := by omega
      rw [List.getD_eq_getElem _ _ hu]
      exact (Nat.mod_eq_of_lt (by have := hb u hu; omega)).symm
    · rename_i h
      rw [List.getD_eq_default _ _ (by omega)]

/-- The number of fillings of the draws that yield the ordering with reduced draws `rs`:
for each draw, the number of values of `rand()` with that remainder. -/
theorem ways_eq_prod (m : Nat) (res : addrinfo_ptr) (p : List addrinfo_ptr)
    (rs : List Nat) (hlen : rs.length = list_length res - 1)
    (hb : ∀ t (h : t < rs.length), rs[t] ≤ t + 1) (hview : randomized_view res rs = p)
    (huniq : ∀ y : List Nat, y.length = list_length res - 1 ∧
      (∀ t (h : t < y.length), y[t] ≤ t + 1) ∧ randomized_view res y = p → y = rs) :
    ways m (list_length res - 1) res p = ∏ t : Fin (list_length res - 1),
      (m / (t.val + 2) + if rs.getD t.val 0 < m % (t.val + 2) then 1 else 0) := by
  have hset : (Finset.univ.filter (fun f : Fin (list_length res - 1) → Fin m =>
      randomized_view res (List.ofFn fun i => (f i).val) = p))
      = Fintype.piFinset (fun t : Fin (list_length res - 1) =>
          Finset.univ.filter (fun x : Fin m => x.val % (t.val + 2) = rs.getD t.val 0)) := by
    ext f
    rw [Finset.mem_filter, Fintype.mem_piFinset,
      randomized_view_eq_iff m res p rs hlen hb hview huniq f]
    simp
  unfold ways
  rw [hset, Fintype.card_piFinset]
  apply Finset.prod_congr rfl
  intro t _
  apply card_remainder
  have ht : t.val < rs.length := by rw [hlen]; exact t.isLt
  rw [List.getD_eq_getElem _ _ ht]
  have := hb t.val ht
  omega

theorem randomized_view_bijective (res : addrinfo_ptr) (p : List addrinfo_ptr)
    (hp : List.Perm p (collect res [])) :
    ∃ rs : List Nat,
      (rs.length = list_length res - 1 ∧ (∀ t (h : t < rs.length), rs[t] ≤ t + 1) ∧
        randomized_view res rs = p) ∧
      ∀ y : List Nat, y.length = list_length res - 1 ∧
        (∀ t (h : t < y.length), y[t] ≤ t + 1) ∧ randomized_view res y = p → y = rs := by
  obtain ⟨rs, hrs, huniq⟩ := random_shuffle_bijective (collect res []) (collect_nodup res) p hp
  simp only [collect_length, ← randomized_view_eq] at hrs huniq
  exact ⟨rs, hrs, huniq⟩

theorem ways_of_dvd (m : Nat) (res : addrinfo_ptr)
    (hm : ∀ i, 2 ≤ i → i ≤ list_length res → i ∣ m) (p : List addrinfo_ptr)
    (hp : List.Perm p (collect res [])) :
    ways m (list_length res - 1) res p
      = ∏ t : Fin (list_length res - 1), m / (t.val + 2) := by
  obtain ⟨rs, ⟨hlen, hb, hview⟩, huniq⟩ := randomized_view_bijective res p hp
  rw [ways_eq_prod m res p rs hlen hb hview huniq]
  apply Finset.prod_congr rfl
  intro t _
  have hd : (t.val + 2) ∣ m := hm _ (by omega) (by have := t.isLt; omega)
  rw [Nat.mod_eq_zero_of_dvd hd, if_neg (Nat.not_lt_zero _), Nat.add_zero]

/-- The number of fillings of the draws that yield the ordering produced by the reduced
draws `rs`. -/
theorem ways_of_draws (m : Nat) (res : addrinfo_ptr) (rs : List Nat)
    (hlen : rs.length = list_length res - 1)
    (hb : ∀ t (h : t < rs.length), rs[t] ≤ t + 1) :
    ways m (list_length res - 1) res (randomized_view res rs)
      = ∏ t ∈ Finset.range (list_length res - 1),
          (m / (t + 2) + if rs.getD t 0 < m % (t + 2) then 1 else 0) := by
  obtain ⟨rs2, ⟨hlen2, hb2, hview2⟩, huniq⟩ :=
    randomized_view_bijective res (randomized_view res rs) (randomized_view_perm res rs)
  have h : rs = rs2 := huniq rs ⟨hlen, hb, rfl⟩
  subst h
  rw [ways_eq_prod m res _ rs hlen hb rfl huniq]
  exact Fin.prod_univ_eq_prod_range
    (fun t => m / (t + 2) + if rs.getD t 0 < m % (t + 2) then 1 else 0) _

/-- C6, as stated, fails: for the three sample addresses the six orderings of the view are
not equally likely. With the values of `rand()` ranging over `[0, RAND_MAX]`,
`RAND_MAX = 2^31 - 1` (the GNU C library), the ordering b, c, a is produced by
`2^30 * 715827883` of the `2^62` values of the two draws of the shuffle and the ordering
b, a, c by `2^30 * 715827882` of them; and over the clock readings that give the `2^32`
seeds, one each, the six orderings built on the sample platform are not produced by
equally many seeds. -/
theorem orderings_of_three_not_equally_likely :
    (List.Perm [sample_b, sample_c, sample_a] (collect sample_a []) ∧
      List.Perm [sample_b, sample_a, sample_c] (collect sample_a []) ∧
      ways (2 ^ 31) 2 sample_a [sample_b, sample_c, sample_a] = 2 ^ 30 * 715827883 ∧
      ways (2 ^ 31) 2 sample_a [sample_b, sample_a, sample_c] = 2 ^ 30 * 715827882) ∧
      ¬ (∀ p q : List addrinfo_ptr, List.Perm p (collect sample_a []) →
        List.Perm q (collect sample_a []) →
        ways (2 ^ 31) 2 sample_a p = ways (2 ^ 31) 2 sample_a q) ∧
      (∀ seed : Nat, seed < 2 ^ 32 → seed_of (clock_of seed) = seed) ∧
      ¬ (∀ p q : List addrinfo_ptr, List.Perm p (collect sample_a []) →
        List.Perm q (collect sample_a []) →
        seed_ways sample_platform sample_world "localhost" p
          = seed_ways sample_platform sample_world "localhost" q) := by
  have h3 : list_length sample_a = 3 := by decide
  have h2 : list_length sample_a - 1 = 2 := by decide
  have hp1 : List.Perm [sample_b, sample_c, sample_a] (collect sample_a []) := by decide
  have hp2 : List.Perm [sample_b, sample_a, sample_c] (collect sample_a []) := by decide
  have hv1 : randomized_view sample_a [0, 1] = [sample_b, sample_c, sample_a] := by decide
  have hv2 : randomized_view sample_a [0, 2] = [sample_b, sample_a, sample_c] := by decide
  have hw1 := ways_of_draws (2 ^ 31) sample_a [0, 1] (by decide) (by decide)
  have hw2 := ways_of_draws (2 ^ 31) sample_a [0, 2] (by decide) (by decide)
  rw [hv1, h2] at hw1
  rw [hv2, h2] at hw2
  have hn1 : ways (2 ^ 31) 2 sample_a [sample_b, sample_c, sample_a] = 2 ^ 30 * 715827883 := by
    rw [hw1]
    simp [Finset.prod_range_succ]
  have hn2 : ways (2 ^ 31) 2 sample_a [sample_b, sample_a, sample_c] = 2 ^ 30 * 715827882 := by
    rw [hw2]
    simp [Finset.prod_range_succ]
  refine ⟨⟨hp1, hp2, hn1, hn2⟩, ?_, seed_of_clock_of, ?_⟩
  · intro h
    have := h _ _ hp1 hp2
    rw [hn1, hn2] at this
    omega
  · intro h
    have hd := equally_many_seeds_forces_dvd sample_platform sample_world "localhost"
      sample_a (by decide) h
    rw [h3] at hd
    have h3d : 3 ∣ (2 : Nat) ^ 32 := Dvd.dvd.trans ⟨2, rfl⟩ hd
    have h32 : 3 ∣ 2 := Nat.Prime.dvd_of_dvd_pow Nat.prime_three h3d
    omega

/-- C6 (amended): with `randomOrder = true`, the order of a view of `n` addresses depends
on the values of `rand()` only through the reduced draws, the `t`-th value modulo `t + 2`;
each ordering `p` of the view is produced by exactly one list `rs` of `n - 1` reduced
draws, and, the values of `rand()` ranging over `[0, RAND_MAX]` with `m = RAND_MAX + 1`,
by exactly the product over the draws of `m / (t + 2)`, plus one when `rs[t]` is below
the remainder of `m` modulo `t + 2`, of the `m ^ (n - 1)` fillings of the draws. So the
orderings are equally likely when every `i` from 2 to `n` divides `RAND_MAX + 1`. -/
theorem orderings_weighted_by_reduced_draws (m : Nat) (res : addrinfo_ptr)
    (p : List addrinfo_ptr) (hp : List.Perm p (collect res [])) :
    (∀ rs rs2 : List Nat, (∀ t, rs.getD t 0 % (t + 2) = rs2.getD t 0 % (t + 2)) →
        randomized_view res rs = randomized_view res rs2) ∧
      ∃ rs : List Nat,
        (rs.length = list_length res - 1 ∧ (∀ t (h : t < rs.length), rs[t] ≤ t + 1) ∧
          randomized_view res rs = p) ∧
        (∀ y : List Nat, y.length = list_length res - 1 ∧
          (∀ t (h : t < y.length), y[t] ≤ t + 1) ∧ randomized_view res y = p → y = rs) ∧
        ways m (list_length res - 1) res p = ∏ t : Fin (list_length res - 1),
          (m / (t.val + 2) + if rs.getD t.val 0 < m % (t.val + 2) then 1 else 0) ∧
        ((∀ i, 2 ≤ i → i ≤ list_length res → i ∣ m) →
          ∀ q : List addrinfo_ptr, List.Perm q (collect res []) →
            ways m (list_length res - 1) res q = ways m (list_length res - 1) res p) := by
  refine ⟨randomized_view_reduced res, ?_⟩
  obtain ⟨rs, ⟨hlen, hb, hview⟩, huniq⟩ := randomized_view_bijective res p hp
  refine ⟨rs, ⟨hlen, hb, hview⟩, huniq, ways_eq_prod m res p rs hlen hb hview huniq, ?_⟩
  intro hm q hq
  rw [ways_of_dvd m res hm q hq, ways_of_dvd m res hm p hp]

/-- C6 (amended), at the three sample addresses with `RAND_MAX = 2^31 - 1`: the ordering
b, c, a comes from the reduced draws 0 and 1 and from `2^30 * 715827883` of the values
of the two draws. -/
theorem orderings_weighted_by_reduced_draws_witness :
    List.Perm [sample_b, sample_c, sample_a] (collect sample_a []) ∧
      randomized_view sample_a [0, 1] = [sample_b, sample_c, sample_a] ∧
      ways (2 ^ 31) (list_length sample_a - 1) sample_a [sample_b, sample_c, sample_a]
        = 2 ^ 30 * 715827883 := by
  have hp : List.Perm [sample_b, sample_c, sample_a] (collect sample_a []) := by decide
  obtain ⟨_, rs, _, huniq, hways, _⟩ := orderings_weighted_by_reduced_draws (2 ^ 31) sample_a
    [sample_b, sample_c, sample_a] hp
  have hrs : [0, 1] = rs := huniq [0, 1] ⟨by decide, by decide, by decide⟩
  subst hrs
  refine ⟨hp, by decide, ?_⟩
  rw [hways, Fin.prod_univ_eq_prod_range
    (fun t => 2 ^ 31 / (t + 2) + if [0, 1].getD t 0 < 2 ^ 31 % (t + 2) then 1 else 0)
    (list_length sample_a - 1)]
  have h2 : list_length sample_a - 1 = 2 := by decide
  rw [h2]
  simp [Finset.prod_range_succ]

end AMQP
